import Mathlib

/-!
Verification of the core algorithms of the git-tools library:
previous-release-tag discovery (`findPreviousReleaseTag`), the reference
resolver (`getDefaultFromRef`), the branch sync engine
(`safeSyncBranchWithRemote`, `isBranchInSyncWithRemote`) and the status
summarizer (`getGitStatusSummary`), together with the validation helpers
they use (`validateGitRef`, `isValidGitRemoteName`).

Subprocess execution (the Command Runner) and the JavaScript `JSON.parse`
primitive are external collaborators; they are modelled as an oracle
(`GitWorld`) mapping each issued command to either a captured stdout string
or a failure message, exactly the two outcomes `runSecure` can produce.
Everything built on top of that oracle is translated from the repository's
TypeScript sources.
-/

namespace GitTools

/-- A single quote character, used when assembling the error-message literals
of the source. -/
def sq : String := String.mk [Char.ofNat 39]

/-! ## Semantic versions (the `semver` package, as consumed by git.ts)

The library uses `semver.parse`, `semver.lt`, `semver.gt` and
`semver.rcompare` (strict mode).  The model below reproduces the strict
grammar `v?MAJOR.MINOR.PATCH(-prerelease)?(+build)?`, the
`MAX_SAFE_INTEGER` bounds, and semver precedence.  Build metadata is
validated during parsing but not stored, since comparison ignores it and
the library never reads it back. -/
/-- A prerelease identifier: all-digit identifiers whose value is below
`Number.MAX_SAFE_INTEGER` are stored numerically, all others as strings,
mirroring the `SemVer` constructor. -/
inductive PreId where
  | num (n : Nat)
  | str (s : String)
deriving DecidableEq

/-- A parsed semantic version. -/
structure SemVer where
  major : Nat
  minor : Nat
  patch : Nat
  prerelease : List PreId
deriving DecidableEq

/-- Number.MAX_SAFE_INTEGER. -/
def MAX_SAFE_INTEGER : Nat := 9007199254740991

/-- Numeric value of a digit string. -/
def digitsToNat (ds : List Char) : Nat :=
  ds.foldl (fun n c => n * 10 + (c.toNat - 48)) 0

/-- Characters the prerelease/build identifier class `[0-9A-Za-z-]` accepts. -/
def isIdChar (c : Char) : Bool :=
  c.isAlpha || c.isDigit || c = '-'

/-- A numeric version part `0|[1-9]\d*`: maximal digit run, no leading zero. -/
def parseNumPart (cs : List Char) : Option (Nat × List Char) :=
  let ds := cs.takeWhile Char.isDigit
  let rest := cs.dropWhile Char.isDigit
  if ds.isEmpty then none
  else if ds.head? = some '0' && ds.length ≠ 1 then none
  else some (digitsToNat ds, rest)

/-- Validity of one prerelease identifier:
`0|[1-9]\d*|\d*[a-zA-Z-][0-9a-zA-Z-]*` (nonempty, identifier characters,
and an all-digit identifier must have no leading zero). -/
def validPreId (s : List Char) : Bool :=
  !s.isEmpty && s.all isIdChar &&
    (if s.all Char.isDigit then s = ['0'] || s.head? ≠ some '0' else true)

/-- Value of a (valid) prerelease identifier, as the `SemVer` constructor
stores it. -/
def preIdValue (s : List Char) : PreId :=
  if s.all Char.isDigit && digitsToNat s < MAX_SAFE_INTEGER then
    .num (digitsToNat s)
  else .str (String.mk s)

/-- Validity of one build identifier: `[0-9a-zA-Z-]+`. -/
def validBuildId (s : List Char) : Bool :=
  !s.isEmpty && s.all isIdChar

/-- JavaScript-style trim on a character list (the version strings reaching
`semver.parse` here are ASCII, so ASCII whitespace suffices). -/
def trimChars (cs : List Char) : List Char :=
  ((cs.dropWhile Char.isWhitespace).reverse.dropWhile Char.isWhitespace).reverse

/-- Parse the prerelease and build sections that follow the patch number.
Returns the prerelease identifier list, or `none` if the grammar is
violated. -/
def parseTail (cs : List Char) : Option (List PreId) :=
  match cs with
  | [] => some []
  | '+' :: b =>
    if (b.splitOn '.').all validBuildId then some [] else none
  | '-' :: r =>
    let preCs := r.takeWhile (· ≠ '+')
    let buildCs := r.dropWhile (· ≠ '+')
    let ids := preCs.splitOn '.'
    if ids.all validPreId then
      match buildCs with
      | [] => some (ids.map preIdValue)
      | '+' :: b =>
        if (b.splitOn '.').all validBuildId then some (ids.map preIdValue)
        else none
      | _ => none
    else none
  | _ => none

/-- The function `semver.parse` in strict mode: `none` on anything that is not a valid
semantic version (length limit, `v?MAJOR.MINOR.PATCH(-pre)?(+build)?`,
`MAX_SAFE_INTEGER` bounds). -/
def semverParse (s : String) : Option SemVer :=
  if s.data.length > 256 then none
  else
    let t := trimChars s.data
    let t := match t with
      | 'v' :: rest => rest
      | other => other
    match parseNumPart t with
    | none => none
    | some (major, r1) =>
      match r1 with
      | '.' :: r2 =>
        match parseNumPart r2 with
        | none => none
        | some (minor, r3) =>
          match r3 with
          | '.' :: r4 =>
            match parseNumPart r4 with
            | none => none
            | some (patch, r5) =>
              match parseTail r5 with
              | none => none
              | some pre =>
                if major ≤ MAX_SAFE_INTEGER && minor ≤ MAX_SAFE_INTEGER &&
                    patch ≤ MAX_SAFE_INTEGER then
                  some ⟨major, minor, patch, pre⟩
                else none
          | _ => none
      | _ => none

/-! ## Semver comparison -/
/-- Lexicographic comparison of identifier strings by code point, the way
JavaScript compares strings with `<`. -/
def cmpCharList : List Char → List Char → Ordering
  | [], [] => .eq
  | [], _ :: _ => .lt
  | _ :: _, [] => .gt
  | a :: as, b :: bs =>
    match compare a.toNat b.toNat with
    | .eq => cmpCharList as bs
    | o => o

/-- The function `compareIdentifiers` of the semver package: numeric identifiers compare
numerically and sort below string identifiers; strings compare
lexicographically. -/
def cmpPreId : PreId → PreId → Ordering
  | .num a, .num b => compare a b
  | .num _, .str _ => .lt
  | .str _, .num _ => .gt
  | .str a, .str b => cmpCharList a.data b.data

/-- Pairwise comparison of prerelease identifier lists (the `do … while` loop
of `SemVer.comparePre`): a missing identifier sorts below a present one. -/
def cmpIds : List PreId → List PreId → Ordering
  | [], [] => .eq
  | [], _ :: _ => .lt
  | _ :: _, [] => .gt
  | a :: as, b :: bs =>
    match cmpPreId a b with
    | .eq => cmpIds as bs
    | o => o

/-- The method `SemVer.comparePre`: a release sorts above any prerelease of the same
numeric triple; two prereleases compare identifier by identifier. -/
def comparePre (a b : List PreId) : Ordering :=
  match a, b with
  | [], [] => .eq
  | _ :: _, [] => .lt
  | [], _ :: _ => .gt
  | x :: xs, y :: ys => cmpIds (x :: xs) (y :: ys)

/-- The method `SemVer.compare`: major, then minor, then patch, then prerelease. -/
def semverCompare (a b : SemVer) : Ordering :=
  (compare a.major b.major).then <|
    (compare a.minor b.minor).then <|
      (compare a.patch b.patch).then (comparePre a.prerelease b.prerelease)

/-- The predicate `semver.lt`. -/
def semverLt (a b : SemVer) : Bool := semverCompare a b = .lt

/-- The predicate `semver.gt`. -/
def semverGt (a b : SemVer) : Bool := semverCompare a b = .gt

/-! ## Tag version extraction

`findPreviousReleaseTag` and its manual-sort fallback extract the version
suffix of a tag with the JavaScript regex match
`tag.match(/v?(\d+\.\d+\.\d+.*?)$/)` and use capture group 1.

With the end anchor, the lazy `.*?` always extends to the end of the
string (never crossing a newline, which `.` does not match), so a match
of the body `\d+\.\d+\.\d+.*?$` starting at position `j` captures exactly
the suffix starting at `j`.  The optional leading `v` contributes no
character to the capture, and a body match at `j` preceded by a `v`
yields the same capture as the bare body match at `j`; the regex engine's
leftmost-match rule therefore makes the capture the suffix starting at
the least position where the body matches. -/
/-- Does `\d+\.\d+\.\d+.*?$` (with `.` not matching a newline) match this
entire character list? -/
def versionBodyMatch (cs : List Char) : Bool :=
  let s1 := cs.takeWhile Char.isDigit
  let r1 := cs.dropWhile Char.isDigit
  if s1.isEmpty then false
  else
    match r1 with
    | '.' :: r2 =>
      let s2 := r2.takeWhile Char.isDigit
      let r3 := r2.dropWhile Char.isDigit
      if s2.isEmpty then false
      else
        match r3 with
        | '.' :: r4 =>
          let s3 := r4.takeWhile Char.isDigit
          let r5 := r4.dropWhile Char.isDigit
          if s3.isEmpty then false else r5.all (· ≠ '\n')
        | _ => false
    | _ => false

/-- The suffix starting at the leftmost position where the regex body
matches. -/
def findBodyStart : List Char → Option (List Char)
  | [] => none
  | c :: cs =>
    if versionBodyMatch (c :: cs) then some (c :: cs) else findBodyStart cs

/-- Capture group 1 of `tag.match(/v?(\d+\.\d+\.\d+.*?)$/)`, or `none` when
the tag has no version suffix. -/
def extractVersionSuffix (tag : String) : Option String :=
  (findBodyStart tag.data).map String.mk

/-- The parsed semantic version of a tag's extracted suffix. -/
def tagVersion (tag : String) : Option SemVer :=
  (extractVersionSuffix tag).bind semverParse

/-! ## The selection loop of `findPreviousReleaseTag` -/
/-- One iteration of the `for (const tag of tags)` loop: tags without a
version suffix or with an unparseable suffix are skipped; a tag whose
version is strictly below the current version replaces the best candidate
when there is none yet or when it is strictly higher than the candidate's
version.  The state keeps the original tag string. -/
def selectStep (cur : SemVer) (st : Option (String × SemVer)) (tag : String) :
    Option (String × SemVer) :=
  match tagVersion tag with
  | none => st
  | some tv =>
    if semverLt tv cur then
      match st with
      | none => some (tag, tv)
      | some (_, pv) => if semverGt tv pv then some (tag, tv) else st
    else st

/-- The whole loop: the winning original tag string, if any. -/
def selectPrevTag (cur : SemVer) (tags : List String) : Option String :=
  (tags.foldl (selectStep cur) none).map Prod.fst

/-- The listing post-processing `stdout.trim().split(newline).filter(tag => tag.length > 0)`. -/
def splitTags (out : String) : List String :=
  (((trimChars out.data).splitOn '\n').map String.mk).filter
    (fun t => t.data.length > 0)

/-- The comparator of the manual-sort fallback, as a `le` relation: `a`
stays before `b` exactly when the JavaScript comparator (0 when either tag
has no parsing version suffix, `semver.rcompare` otherwise) is ≤ 0. -/
def tagSortLe (a b : String) : Bool :=
  match extractVersionSuffix a, extractVersionSuffix b with
  | some av, some bv =>
    match semverParse av, semverParse bv with
    | some sa, some sb => !semverGt sb sa
    | _, _ => true
  | _, _ => true

/-- The manual descending sort used when `git tag --sort` is unavailable.
`Array.prototype.sort` (a stable sort in V8) is modelled by the stable
`List.mergeSort`; the claims checked here depend only on the sorted list
being a permutation of the input. -/
def manualSortTags (tags : List String) : List String :=
  tags.mergeSort tagSortLe

/-! ## Characterization of the selection loop -/
/-- The version of a tag when it qualifies (parses and is strictly below the
current version), `none` otherwise. -/
def qualVer (cur : SemVer) (tag : String) : Option SemVer :=
  match tagVersion tag with
  | some tv => if semverLt tv cur then some tv else none
  | none => none

/-! ## JSON values (`JSON.parse` results) -/
/-- A parsed JSON value.  `JSON.parse` itself is a JavaScript builtin; the
oracle returns either a failure or one of these values (objects with their
duplicate keys already resolved, as the runtime does). -/
inductive Json where
  | null
  | bool (b : Bool)
  | num (n : Int)
  | str (s : String)
  | arr (xs : List Json)
  | obj (fields : List (String × Json))

/-- JavaScript property access `value.key` on a parsed value: a lookup on
objects, `undefined` (here `none`) on everything else. -/
def Json.getField : Json → String → Option Json
  | .obj fields, key =>
    match fields.find? (fun f => f.1 = key) with
    | some f => some f.2
    | none => none
  | _, _ => none

/-- JavaScript truthiness of a possibly-absent value. -/
def jsTruthy : Option Json → Bool
  | none => false
  | some .null => false
  | some (.bool b) => b
  | some (.num n) => n ≠ 0
  | some (.str s) => s.data ≠ []
  | some (.arr _) => true
  | some (.obj _) => true

/-! ## The subprocess oracle -/
/-- The subprocess invocations the modelled functions issue, with their
arguments. -/
inductive GitCmd where
  | showCurrentBranch
  | fetch (remote : String)
  | revParseVerify (ref : String)
  | revParse (ref : String)
  | branchCreate (branch remoteRef : String)
  | statusPorcelain
  | checkout (branch : String)
  | pullFFOnly (remote branch : String)
  | tagListSorted (pattern : String)
  | tagList (pattern : String)
  | showHeadPackageJson
  | revListCount (range : String)
deriving DecidableEq

/-- The external world: each subprocess invocation either resolves with a
captured stdout or rejects with an error message (the two outcomes of
`runSecure`); `JSON.parse` either yields a value or throws; reading the
working-directory package.json and changing directory can likewise fail. -/
structure GitWorld where
  run : GitCmd → Except String String
  jsonParse : String → Except String Json
  readWdPackageJson : Except String String
  chdir : String → Except String Unit
  chdirRestore : Except String Unit

/-! ## Validation helpers (child.ts) -/
/-- Containment of a contiguous subsequence, used for JavaScript
`String.prototype.includes` and regular-expression substring tests. -/
def containsSeq [BEq α] : List α → List α → Bool
  | [], sub => sub.isEmpty
  | c :: rest, sub => sub.isPrefixOf (c :: rest) || containsSeq rest sub

/-- JavaScript `s.includes(sub)`. -/
def strContains (s sub : String) : Bool := containsSeq s.data sub.data

/-- JavaScript `s.startsWith(p)` (also the leading-dash regex test of
`validateGitRef` for the one-character pattern). -/
def jsStartsWith (s p : String) : Bool := p.data.isPrefixOf s.data

/-- The character class of `validateGitRef` (letters, digits, dot,
underscore, slash, dash), which is also the remote-name class. -/
def isRefChar (c : Char) : Bool :=
  c.isAlpha || c.isDigit || c = '.' || c = '_' || c = '/' || c = '-'

/-- The shell metacharacters rejected by `validateGitRef`. -/
def shellMetaChars : List Char :=
  [';', '<', '>', '|', '&', Char.ofNat 96, Char.ofNat 36, Char.ofNat 40,
    Char.ofNat 41, Char.ofNat 123, Char.ofNat 125, '[', ']']

/-- One whitespace or shell metacharacter, the rejection class of
`validateGitRef`. -/
def isMetaOrWs (c : Char) : Bool :=
  c.isWhitespace || shellMetaChars.contains c

/-- The predicate `validateGitRef` of child.ts: the full string is a nonempty run of
reference characters and none of the rejection patterns (a `..` sequence,
a leading dash, a whitespace or shell metacharacter) applies. -/
def validateGitRef (ref : String) : Bool :=
  (ref.data.length > 0 && ref.data.all isRefChar) &&
    !containsSeq ref.data ['.', '.'] &&
    !jsStartsWith ref "-" &&
    !(ref.data.any isMetaOrWs)

/-- The predicate `isValidGitRemoteName` of git.ts: nonempty, no leading dash, and only
reference-class characters. -/
def isValidGitRemoteName (remote : String) : Bool :=
  remote.data.length > 0 && !jsStartsWith remote "-" &&
    remote.data.all isRefChar

/-- The probe `isValidGitRefSilent`: reject refs failing `validateGitRef` without any
subprocess, otherwise probe with `git rev-parse --verify`; any failure is
`false`.  Returns the probe trace alongside the result. -/
def isValidGitRefSilentT (w : GitWorld) (ref : String) : Bool × List GitCmd :=
  if validateGitRef ref then
    match w.run (.revParseVerify ref) with
    | .ok _ => (true, [.revParseVerify ref])
    | .error _ => (false, [.revParseVerify ref])
  else (false, [])

/-- The probe `isValidGitRef` (the logging variant behaves identically apart from log
output). -/
def isValidGitRefB (w : GitWorld) (ref : String) : Bool :=
  (isValidGitRefSilentT w ref).1

/-- The probe `localBranchExists`. -/
def localBranchExistsT (w : GitWorld) (branchName : String) : Bool × List GitCmd :=
  isValidGitRefSilentT w ("refs/heads/" ++ branchName)

/-- The probe `remoteBranchExists`. -/
def remoteBranchExistsT (w : GitWorld) (branchName remote : String) :
    Bool × List GitCmd :=
  isValidGitRefSilentT w ("refs/remotes/" ++ remote ++ "/" ++ branchName)

/-! ## `findPreviousReleaseTag` -/
/-- The tag listing of `findPreviousReleaseTag`: the `--sort=-version:refname`
listing, falling back on its failure to an unsorted listing that is then
sorted manually; failure of the fallback propagates (to the enclosing
catch). -/
def listTagsResult (w : GitWorld) (tagPattern : String) :
    Except String (List String) :=
  match w.run (.tagListSorted tagPattern) with
  | .ok out => .ok (splitTags out)
  | .error _ =>
    match w.run (.tagList tagPattern) with
    | .ok out => .ok (manualSortTags (splitTags out))
    | .error e => .error e

/-- The body of `findPreviousReleaseTag` before its enclosing catch: null for
an unparseable current version, null for an empty tag list, otherwise the
selection loop's winner. -/
def findPreviousReleaseTagBody (w : GitWorld) (currentVersion tagPattern : String) :
    Except String (Option String) :=
  match semverParse currentVersion with
  | none => .ok none
  | some cur =>
    match listTagsResult w tagPattern with
    | .error e => .error e
    | .ok tags =>
      if tags.isEmpty then .ok none
      else .ok (selectPrevTag cur tags)

/-- The function `findPreviousReleaseTag`: the body with every failure converted to a null
result by the enclosing catch. -/
def findPreviousReleaseTag (w : GitWorld) (currentVersion tagPattern : String) :
    Except String (Option String) :=
  match findPreviousReleaseTagBody w currentVersion tagPattern with
  | .error _ => .ok none
  | .ok r => .ok r

/-- A world whose sorted tag listing yields the three-tag scenario of the
specification. -/
def cw1 : GitWorld where
  run := fun c =>
    if c = .tagListSorted "v*" then .ok "v2.1.0\nv2.0.0\nv1.9.0"
    else .error "unused"
  jsonParse := fun _ => .error "unused"
  readWdPackageJson := .error "unused"
  chdir := fun _ => .ok ()
  chdirRestore := .ok ()

/-- A world whose sorted listing succeeds with three tags. -/
def cw10a : GitWorld where
  run := fun c =>
    if c = .tagListSorted "v*" then .ok "v2.1.0\nv2.0.0\nv1.9.0"
    else .error "unused"
  jsonParse := fun _ => .error "unused"
  readWdPackageJson := .error "unused"
  chdir := fun _ => .ok ()
  chdirRestore := .ok ()

/-- A world whose sorted listing is rejected and whose unsorted listing
yields the same tags in a different order. -/
def cw10b : GitWorld where
  run := fun c =>
    if c = .tagList "v*" then .ok "v1.9.0\nv2.1.0\nv2.0.0"
    else .error "unsupported sort flag"
  jsonParse := fun _ => .error "unused"
  readWdPackageJson := .error "unused"
  chdir := fun _ => .ok ()
  chdirRestore := .ok ()

/-! ## `safeSyncBranchWithRemote` -/
/-- The result object of `safeSyncBranchWithRemote`; the two optional fields
are absent (`none`) unless the source sets them. -/
structure SyncResult where
  success : Bool
  error : Option String := none
  conflictResolutionRequired : Option Bool := none
deriving DecidableEq

/-- The outer-catch message `Failed to sync branch ...`. -/
def syncFailMsg (branchName msg : String) : String :=
  "Failed to sync branch " ++ sq ++ branchName ++ sq ++ ": " ++ msg

/-- The four case-sensitive substrings which mark a pull failure as a
conflict. -/
def conflictMarkers : List String :=
  ["diverged", "non-fast-forward", "conflict", "CONFLICT"]

/-- The conflict classification of the pull-error handler. -/
def hasConflictMarker (msg : String) : Bool :=
  conflictMarkers.any (fun m => strContains msg m)

/-- The conflict-resolution error message, naming the branch and the
remote/branch pair. -/
def conflictMsg (branchName remote : String) : String :=
  ("Branch " ++ sq) ++ branchName ++
    (sq ++ " has diverged from " ++ sq) ++ (remote ++ "/" ++ branchName) ++
    (sq ++ " and requires manual conflict resolution")

/-- The abort message for a dirty working tree. -/
def uncommittedChangesMsg (branchName : String) : String :=
  ("Cannot switch to branch " ++ sq) ++ branchName ++
    (sq ++ " because you have ") ++ "uncommitted changes" ++
    (". Please commit or stash your changes first.")

/-- The `catch (pullError)` handler of the inner try: a best-effort switch
back to the original branch (its own failure swallowed by an inner
try), then classification of the error text by substring match. -/
def handlePullError (branchName remote originalBranch : String)
    (needToSwitch : Bool) (e : String) (tr : List GitCmd) :
    SyncResult × List GitCmd :=
  let tr :=
    if needToSwitch && originalBranch != "" then tr ++ [GitCmd.checkout originalBranch]
    else tr
  if hasConflictMarker e then
    ({ success := false, conflictResolutionRequired := some true,
       error := some (conflictMsg branchName remote) }, tr)
  else
    ({ success := false, error := some (syncFailMsg branchName e) }, tr)

/-- The inner try of `safeSyncBranchWithRemote`: the fast-forward-only pull
and, when a switch occurred, the checkout back to the original branch.
The restoring checkout sits inside this same try, so its rejection also
lands in the pull-error handler. -/
def pullPhase (w : GitWorld) (branchName remote originalBranch : String)
    (needToSwitch : Bool) (tr : List GitCmd) : SyncResult × List GitCmd :=
  match w.run (.pullFFOnly remote branchName) with
  | .ok _ =>
    if needToSwitch && originalBranch != "" then
      match w.run (.checkout originalBranch) with
      | .ok _ =>
        ({ success := true },
          tr ++ [GitCmd.pullFFOnly remote branchName, .checkout originalBranch])
      | .error e =>
        handlePullError branchName remote originalBranch needToSwitch e
          (tr ++ [GitCmd.pullFFOnly remote branchName, .checkout originalBranch])
    else ({ success := true }, tr ++ [GitCmd.pullFFOnly remote branchName])
  | .error e =>
    handlePullError branchName remote originalBranch needToSwitch e
      (tr ++ [GitCmd.pullFFOnly remote branchName])

/-- The function `safeSyncBranchWithRemote`, returning the result object together with
the exact sequence of subprocess invocations issued.  A rejection of a
subprocess call not guarded by an inner try is converted by the outer
catch into a generic `Failed to sync branch` result. -/
def safeSyncBranchWithRemote (w : GitWorld) (branchName remote : String) :
    SyncResult × List GitCmd :=
  if !isValidGitRemoteName remote then
    ({ success := false,
       error := some ("Invalid remote name: " ++ sq ++ remote ++ sq) }, [])
  else if !validateGitRef branchName then
    ({ success := false,
       error := some (syncFailMsg branchName ("Invalid branch name: " ++ branchName)) },
      [])
  else if !validateGitRef remote then
    ({ success := false,
       error := some (syncFailMsg branchName ("Invalid remote name: " ++ remote)) },
      [])
  else if jsStartsWith remote "-" then
    ({ success := false,
       error := some (syncFailMsg branchName
         ("Disallowed remote name (cannot start with " ++ sq ++ "-" ++ sq ++ "): "
           ++ remote)) }, [])
  else
    match w.run .showCurrentBranch with
    | .error e =>
      ({ success := false, error := some (syncFailMsg branchName e) },
        [GitCmd.showCurrentBranch])
    | .ok currentBranch =>
      let originalBranch := String.mk (trimChars currentBranch.data)
      match w.run (.fetch remote) with
      | .error e =>
        ({ success := false, error := some (syncFailMsg branchName e) },
          [GitCmd.showCurrentBranch, .fetch remote])
      | .ok _ =>
        let le := localBranchExistsT w branchName
        let re := remoteBranchExistsT w branchName remote
        let tr := [GitCmd.showCurrentBranch, .fetch remote] ++ le.2 ++ re.2
        if !re.1 then
          ({ success := false,
             error := some ("Remote branch " ++ sq ++ (remote ++ "/" ++ branchName)
               ++ sq ++ " does not exist") }, tr)
        else if !le.1 then
          match w.run (.branchCreate branchName (remote ++ "/" ++ branchName)) with
          | .error e =>
            ({ success := false, error := some (syncFailMsg branchName e) },
              tr ++ [GitCmd.branchCreate branchName (remote ++ "/" ++ branchName)])
          | .ok _ =>
            ({ success := true },
              tr ++ [GitCmd.branchCreate branchName (remote ++ "/" ++ branchName)])
        else
          if originalBranch != branchName then
            match w.run .statusPorcelain with
            | .error e =>
              ({ success := false, error := some (syncFailMsg branchName e) },
                tr ++ [GitCmd.statusPorcelain])
            | .ok statusOutput =>
              if String.mk (trimChars statusOutput.data) != "" then
                ({ success := false,
                   error := some (uncommittedChangesMsg branchName) },
                  tr ++ [GitCmd.statusPorcelain])
              else
                match w.run (.checkout branchName) with
                | .error e =>
                  ({ success := false, error := some (syncFailMsg branchName e) },
                    tr ++ [GitCmd.statusPorcelain, .checkout branchName])
                | .ok _ =>
                  pullPhase w branchName remote originalBranch true
                    (tr ++ [GitCmd.statusPorcelain, .checkout branchName])
          else
            pullPhase w branchName remote originalBranch false tr

/-- A world for the conflict-classification witness: everything needed to
reach the pull succeeds, and the pull rejects with a conflict message. -/
def cw5 : GitWorld where
  run := fun c =>
    match c with
    | .showCurrentBranch => .ok "feature"
    | .fetch "origin" => .ok ""
    | .revParseVerify _ => .ok "abc123"
    | .pullFFOnly "origin" "feature" =>
      .error "fatal: Not possible to fast-forward, branches have diverged"
    | _ => .error "x"
  jsonParse := fun _ => .error "unused"
  readWdPackageJson := .error "unused"
  chdir := fun _ => .ok ()
  chdirRestore := .ok ()

/-- A world reproducing the dirty-tree scenario of the test suite. -/
def cw7 : GitWorld where
  run := fun c =>
    match c with
    | .showCurrentBranch => .ok "main"
    | .fetch "origin" => .ok ""
    | .revParseVerify _ => .ok "abc123"
    | .statusPorcelain => .ok "M  modified.txt"
    | _ => .error "x"
  jsonParse := fun _ => .error "unused"
  readWdPackageJson := .error "unused"
  chdir := fun _ => .ok ()
  chdirRestore := .ok ()

/-- C2 fails on the code: when the switch back to the original branch after
a successful pull rejects, that rejection is raised inside the pull try
block and lands in the pull-error handler, so the function reports
failure, not success. -/
def cw2 : GitWorld where
  run := fun c =>
    match c with
    | .showCurrentBranch => .ok "main"
    | .fetch "origin" => .ok ""
    | .revParseVerify _ => .ok "abc123"
    | .statusPorcelain => .ok ""
    | .checkout "feature" => .ok ""
    | .checkout "main" => .error "git checkout main failed with exit code 1"
    | .pullFFOnly "origin" "feature" => .ok ""
    | _ => .error "x"
  jsonParse := fun _ => .error "unused"
  readWdPackageJson := .error "unused"
  chdir := fun _ => .ok ()
  chdirRestore := .ok ()

/-! ## `getCurrentVersion` (validation.ts plus git.ts) -/
/-- The helper `safeJsonParse`: wraps the oracle's `JSON.parse` outcome, converting a
parse failure — or a parsed `null` — into a context-labelled error. -/
def safeJsonParse (w : GitWorld) (s context : String) : Except String Json :=
  match w.jsonParse s with
  | .error e => .error ("Failed to parse JSON (" ++ context ++ "): " ++ e)
  | .ok .null =>
    .error ("Failed to parse JSON (" ++ context ++
      "): Parsed JSON is null or undefined")
  | .ok v => .ok v

/-- The helper `validatePackageJson` with its default `requireName`: the value must be
truthy and of JavaScript type object (an object or an array; a parsed
`null` cannot reach here), and its `name` property must be a string —
which an array never has. -/
def validatePackageJson (data : Json) (context : String) : Except String Json :=
  match data with
  | .obj fields =>
    match (Json.obj fields).getField "name" with
    | some (.str _) => .ok (.obj fields)
    | _ => .error ("Invalid package.json (" ++ context ++ "): name must be a string")
  | .arr _ =>
    .error ("Invalid package.json (" ++ context ++ "): name must be a string")
  | _ => .error ("Invalid package.json (" ++ context ++ "): not an object")

/-- The HEAD branch of `getCurrentVersion`: show `HEAD:package.json`, parse,
validate, and return the truthy `version` property or null; any rejection
escapes to the catch. -/
def headVersionAttempt (w : GitWorld) : Except String (Option Json) :=
  match w.run .showHeadPackageJson with
  | .error e => .error e
  | .ok out =>
    match safeJsonParse w out "package.json" with
    | .error e => .error e
    | .ok pj =>
      match validatePackageJson pj "package.json" with
      | .error e => .error e
      | .ok validated =>
        if jsTruthy (validated.getField "version") then
          .ok (validated.getField "version")
        else .ok none

/-- The catch branch of `getCurrentVersion`: read the working-directory
package.json, parse and validate it, and return its truthy `version`
property; any failure yields null. -/
def wdVersionFallback (w : GitWorld) : Option Json :=
  match w.readWdPackageJson with
  | .error _ => none
  | .ok content =>
    match safeJsonParse w content "package.json" with
    | .error _ => none
    | .ok pj =>
      match validatePackageJson pj "package.json" with
      | .error _ => none
      | .ok validated =>
        if jsTruthy (validated.getField "version") then
          validated.getField "version"
        else none

/-- The function `getCurrentVersion`: the HEAD attempt, with the working-directory
fallback run only when the HEAD attempt rejects. -/
def getCurrentVersion (w : GitWorld) : Except String (Option Json) :=
  match headVersionAttempt w with
  | .ok r => .ok r
  | .error _ => .ok (wdVersionFallback w)

/-! ## `isBranchInSyncWithRemote` -/
/-- The result object of `isBranchInSyncWithRemote`. -/
structure SyncStatus where
  inSync : Bool
  localSha : Option String := none
  remoteSha : Option String := none
  localExists : Bool
  remoteExists : Bool
  error : Option String := none
deriving DecidableEq

/-- The helper `getBranchCommitSha`: injection-validate the ref (throwing on failure),
then resolve it with `git rev-parse`. -/
def getBranchCommitSha (w : GitWorld) (branchRef : String) : Except String String :=
  if !validateGitRef branchRef then
    .error ("Invalid git reference: " ++ branchRef)
  else
    match w.run (.revParse branchRef) with
    | .error e => .error e
    | .ok out => .ok (String.mk (trimChars out.data))

/-- The try block of `isBranchInSyncWithRemote`. -/
def isBranchInSyncBody (w : GitWorld) (branchName remote : String) :
    Except String SyncStatus :=
  if !validateGitRef branchName then
    .error ("Invalid branch name: " ++ branchName)
  else if !validateGitRef remote then
    .error ("Invalid remote name: " ++ remote)
  else
    match w.run (.fetch remote) with
    | .error e => .error e
    | .ok _ =>
      let localExists := (localBranchExistsT w branchName).1
      let remoteExists := (remoteBranchExistsT w branchName remote).1
      if !localExists then
        .ok { inSync := false, localExists := false, remoteExists,
              error := some ("Local branch " ++ sq ++ branchName ++ sq
                ++ " does not exist") }
      else if !remoteExists then
        .ok { inSync := false, localExists := true, remoteExists := false,
              error := some ("Remote branch " ++ sq ++ (remote ++ "/" ++ branchName)
                ++ sq ++ " does not exist") }
      else
        match getBranchCommitSha w ("refs/heads/" ++ branchName) with
        | .error e => .error e
        | .ok localSha =>
          match getBranchCommitSha w
              ("refs/remotes/" ++ remote ++ "/" ++ branchName) with
          | .error e => .error e
          | .ok remoteSha =>
            .ok { inSync := localSha == remoteSha, localSha := some localSha,
                  remoteSha := some remoteSha, localExists := true,
                  remoteExists := true }

/-- The function `isBranchInSyncWithRemote`: the body with every rejection converted by
the catch into an error-flagged status with both existence flags false. -/
def isBranchInSyncWithRemote (w : GitWorld) (branchName remote : String) :
    Except String SyncStatus :=
  match isBranchInSyncBody w branchName remote with
  | .ok s => .ok s
  | .error e =>
    .ok { inSync := false, localExists := false, remoteExists := false,
          error := some ("Failed to check branch sync: " ++ e) }

/-! ## `getGitStatusSummary` -/
/-- The result object of `getGitStatusSummary`. -/
structure StatusSummary where
  branch : String
  hasUnstagedFiles : Bool
  hasUncommittedChanges : Bool
  hasUnpushedCommits : Bool
  unstagedCount : Nat
  uncommittedCount : Nat
  unpushedCount : Int
  status : String
deriving DecidableEq

/-- JavaScript `parseInt` restricted to decimal input as produced by
`git rev-list --count`: leading whitespace, an optional sign, and a
maximal digit run; `none` models `NaN`. -/
def parseIntJS (s : String) : Option Int :=
  let t := s.data.dropWhile Char.isWhitespace
  let signed : Int × List Char :=
    match t with
    | '-' :: r => (-1, r)
    | '+' :: r => (1, r)
    | r => (1, r)
  let ds := signed.2.takeWhile Char.isDigit
  if ds.isEmpty then none else some (signed.1 * (digitsToNat ds : Int))

/-- The porcelain output split into lines, with to lines with nonblank
content. -/
def splitStatusLines (out : String) : List String :=
  (((trimChars out.data).splitOn '\n').map String.mk).filter
    (fun l => String.mk (trimChars l.data) != "")

/-- One iteration of the porcelain classification loop.  `statusCode` is
`line.substring(0, 2)`; an untracked line counts once as unstaged; any
other line counts as unstaged when its second character is neither a
blank nor missing off the end of the line (a missing character compares
unequal to a blank in JavaScript, hence also counts), and as uncommitted
by the same test on its first character. -/
def classifyStep (acc : Nat × Nat) (line : String) : Nat × Nat :=
  let code := line.data.take 2
  if code = ['?', '?'] then (acc.1 + 1, acc.2)
  else
    let unst :=
      match code.get? 1 with
      | some c => if c ≠ ' ' then acc.1 + 1 else acc.1
      | none => acc.1 + 1
    let uncm :=
      match code.get? 0 with
      | some c => if c ≠ ' ' then acc.2 + 1 else acc.2
      | none => acc.2 + 1
    (unst, uncm)

/-- The porcelain classification loop: (unstagedCount, uncommittedCount). -/
def countStatusLines (lines : List String) : Nat × Nat :=
  lines.foldl classifyStep (0, 0)

/-- The unpushed-commit probe: fetch the remote, check the remote branch,
and count commits ahead; any failure leaves the count at zero. -/
def unpushedAttempt (w : GitWorld) (branch : String) : Int :=
  match w.run (.fetch "origin") with
  | .error _ => 0
  | .ok _ =>
    if (remoteBranchExistsT w branch "origin").1 then
      match w.run (.revListCount ("origin/" ++ branch ++ "..HEAD")) with
      | .error _ => 0
      | .ok out =>
        match parseIntJS (String.mk (trimChars out.data)) with
        | some n => n
        | none => 0
    else 0

/-- The degraded summary returned on a top-level failure. -/
def errorStatusSummary : StatusSummary :=
  { branch := "unknown", hasUnstagedFiles := false, hasUncommittedChanges := false,
    hasUnpushedCommits := false, unstagedCount := 0, uncommittedCount := 0,
    unpushedCount := 0, status := "error" }

/-- The body of `getGitStatusSummary`: branch, porcelain classification,
unpushed probe, and the derived human-readable status string. -/
def statusSummaryBody (w : GitWorld) : Except String StatusSummary :=
  match w.run .showCurrentBranch with
  | .error e => .error e
  | .ok branchOut =>
    let branch := String.mk (trimChars branchOut.data)
    match w.run .statusPorcelain with
    | .error e => .error e
    | .ok statusOutput =>
      let counts := countStatusLines (splitStatusLines statusOutput)
      let unpushedCount := unpushedAttempt w branch
      let hasUnstagedFiles := counts.1 > 0
      let hasUncommittedChanges := counts.2 > 0
      let hasUnpushedCommits := unpushedCount > 0
      let statusParts : List String :=
        (if hasUnstagedFiles then [toString counts.1 ++ " unstaged"] else []) ++
        (if hasUncommittedChanges then [toString counts.2 ++ " uncommitted"] else []) ++
        (if hasUnpushedCommits then [toString unpushedCount ++ " unpushed"] else [])
      .ok { branch,
            hasUnstagedFiles, hasUncommittedChanges, hasUnpushedCommits,
            unstagedCount := counts.1, uncommittedCount := counts.2,
            unpushedCount,
            status := if statusParts.length > 0 then
                String.intercalate ", " statusParts
              else "clean" }

/-- The scoped-directory-change wrapper around the body: the optional
`chdir` in, the body, and the unconditional restore whose own failure
(as in a JavaScript `finally`) replaces the body's outcome. -/
def statusAttempt (w : GitWorld) (workingDir : Option String) :
    Except String StatusSummary :=
  match workingDir with
  | none => statusSummaryBody w
  | some d =>
    match w.chdir d with
    | .error e => .error e
    | .ok _ =>
      let r := statusSummaryBody w
      match w.chdirRestore with
      | .error e => .error e
      | .ok _ => r

/-- The function `getGitStatusSummary`: any rejection of the attempt is converted by the
catch into the degraded unknown/error summary. -/
def getGitStatusSummary (w : GitWorld) (workingDir : Option String) :
    Except String StatusSummary :=
  match statusAttempt w workingDir with
  | .error _ => .ok errorStatusSummary
  | .ok s => .ok s

/-! ## `getDefaultFromRef` -/
/-- The version handed to `findPreviousReleaseTag` by the resolver is
whatever `getCurrentVersion` returned; `semver.parse` yields null on a
non-string, making the tag lookup return null. -/
def findPreviousReleaseTagJ (w : GitWorld) (v : Json) (pat : String) :
    Except String (Option String) :=
  match v with
  | .str s => findPreviousReleaseTag w s pat
  | _ => .ok none

/-- The working-branch step of the resolver: only on the `working` branch,
look up the previous `working/v*` tag for the current version and accept
it if it validates as a git reference; every failure (including an
exception, which the surrounding try swallows) falls through as `none`. -/
def workingTagCandidate (w : GitWorld) (currentBranch : Option String) :
    Option String :=
  if currentBranch = some "working" then
    match getCurrentVersion w with
    | .ok (some v) =>
      match findPreviousReleaseTagJ w v "working/v*" with
      | .ok (some tag) => if isValidGitRefB w tag then some tag else none
      | _ => none
    | _ => none
  else none

/-- The regular previous-release-tag step of the resolver, with the default
`v*` pattern; failures fall through as `none`. -/
def releaseTagCandidate (w : GitWorld) : Option String :=
  match getCurrentVersion w with
  | .ok (some v) =>
    match findPreviousReleaseTagJ w v "v*" with
    | .ok (some tag) => if isValidGitRefB w tag then some tag else none
    | _ => none
  | _ => none

/-- The fixed fallback chain of the resolver. -/
def fromRefCandidates : List String := ["main", "master", "origin/main", "origin/master"]

/-- The message of the resolver's only raised error, enumerating the
attempted candidates. -/
def fromRefErrorMsg (forceMainBranch : Bool) : String :=
  ("Could not find a valid default git reference for --from parameter. " ++
    "Please specify --from explicitly or check your git repository configuration. " ++
    "Tried: ") ++
    (if forceMainBranch then "main branch only" else "previous release tag") ++
    ", " ++ String.intercalate ", " fromRefCandidates

/-- The resolver `getDefaultFromRef`: unless forced to the main branch, return the first
tag-based candidate; otherwise the first fallback reference that
validates; otherwise raise the fatal error. -/
def getDefaultFromRef (w : GitWorld) (forceMainBranch : Bool)
    (currentBranch : Option String) : Except String String :=
  let tagResult : Option String :=
    if forceMainBranch then none
    else
      match workingTagCandidate w currentBranch with
      | some t => some t
      | none => releaseTagCandidate w
  match tagResult with
  | some t => .ok t
  | none =>
    match fromRefCandidates.find? (fun c => isValidGitRefB w c) with
    | some c => .ok c
    | none => .error (fromRefErrorMsg forceMainBranch)

/-! ## Claim C3: the `getCurrentVersion` fallback -/
/-- A HEAD package.json that validates but has no version field. -/
def headPkgStr : String := "\x7b\"name\":\"test-package\"\x7d"

/-- A working-directory package.json with a version field. -/
def wdPkgStr : String := "\x7b\"name\":\"test-package\",\"version\":\"1.2.3\"\x7d"

/-- The parsed HEAD package.json. -/
def headPkgJson : Json := .obj [("name", .str "test-package")]

/-- The parsed working-directory package.json. -/
def wdPkgJson : Json := .obj [("name", .str "test-package"), ("version", .str "1.2.3")]

/-- A world where HEAD:package.json validates without a version and the
working-directory package.json carries version 1.2.3. -/
def cw3 : GitWorld where
  run := fun c =>
    match c with
    | .showHeadPackageJson => .ok headPkgStr
    | _ => .error "x"
  jsonParse := fun s =>
    if s = headPkgStr then .ok headPkgJson
    else if s = wdPkgStr then .ok wdPkgJson
    else .error "Unexpected token"
  readWdPackageJson := .ok wdPkgStr
  chdir := fun _ => .ok ()
  chdirRestore := .ok ()

/-! ## Claim C4: the read-only queries never raise -/
/-- A world in which every external operation fails. -/
def cwErr : GitWorld where
  run := fun _ => .error "boom"
  jsonParse := fun _ => .error "boom"
  readWdPackageJson := .error "boom"
  chdir := fun _ => .error "boom"
  chdirRestore := .error "boom"

/-- A world whose porcelain status is the single line `MM file.txt`, with
the unpushed probe failing at the fetch. -/
def cw9mm : GitWorld where
  run := fun c =>
    match c with
    | .showCurrentBranch => .ok "main"
    | .statusPorcelain => .ok "MM file.txt"
    | _ => .error "x"
  jsonParse := fun _ => .error "unused"
  readWdPackageJson := .error "unused"
  chdir := fun _ => .ok ()
  chdirRestore := .ok ()

/-- A world whose porcelain status is the single line `?? newfile.txt`. -/
def cw9q : GitWorld where
  run := fun c =>
    match c with
    | .showCurrentBranch => .ok "main"
    | .statusPorcelain => .ok "?? newfile.txt"
    | _ => .error "x"
  jsonParse := fun _ => .error "unused"
  readWdPackageJson := .error "unused"
  chdir := fun _ => .ok ()
  chdirRestore := .ok ()

/-! ## Order properties of `semverCompare` -/
theorem ordThen_eq_eq {o₁ o₂ : Ordering} :
    o₁.then o₂ = .eq ↔ o₁ = .eq ∧ o₂ = .eq := by
  cases o₁ <;> simp [Ordering.then]

theorem ordThen_swap {o₁ o₂ : Ordering} :
    (o₁.then o₂).swap = o₁.swap.then o₂.swap := by
  cases o₁ <;> cases o₂ <;> rfl

theorem natCompare_swap (a b : Nat) : (compare a b).swap = compare b a := by
  rcases Nat.lt_trichotomy a b with h | h | h
  · rw [Nat.compare_eq_lt.mpr h, Nat.compare_eq_gt.mpr h]; rfl
  · subst h; rw [Nat.compare_eq_eq.mpr rfl]; rfl
  · rw [Nat.compare_eq_gt.mpr h, Nat.compare_eq_lt.mpr h]; rfl

theorem natCompare_lt_trans {a b c : Nat} (h₁ : compare a b = .lt)
    (h₂ : compare b c = .lt) : compare a c = .lt := by
  rw [Nat.compare_eq_lt] at *
  omega

theorem char_eq_of_toNat_eq {a b : Char} (h : a.toNat = b.toNat) : a = b := by
  apply Char.eq_of_val_eq
  apply UInt32.eq_of_toBitVec_eq
  apply BitVec.eq_of_toNat_eq
  exact h

theorem cmpCharList_eq_iff : ∀ {a b : List Char}, cmpCharList a b = .eq ↔ a = b := by
  intro a
  induction a with
  | nil => intro b; cases b <;> simp [cmpCharList]
  | cons x xs ih =>
    intro b
    cases b with
    | nil => simp [cmpCharList]
    | cons y ys =>
      simp only [cmpCharList]
      rcases h : compare x.toNat y.toNat with _ | _ | _
      · constructor
        · intro hf; exact Ordering.noConfusion hf
        · rintro heq
          injection heq with h1 h2
          subst h1
          rw [Nat.compare_eq_eq.mpr rfl] at h
          exact Ordering.noConfusion h
      · have hxy : x = y := char_eq_of_toNat_eq (Nat.compare_eq_eq.mp h)
        subst hxy
        rw [ih]
        constructor
        · intro h2; rw [h2]
        · intro h2; injection h2
      · constructor
        · intro hf; exact Ordering.noConfusion hf
        · rintro heq
          injection heq with h1 h2
          subst h1
          rw [Nat.compare_eq_eq.mpr rfl] at h
          exact Ordering.noConfusion h

theorem cmpCharList_swap : ∀ (a b : List Char), (cmpCharList a b).swap = cmpCharList b a := by
  intro a
  induction a with
  | nil => intro b; cases b <;> rfl
  | cons x xs ih =>
    intro b
    cases b with
    | nil => rfl
    | cons y ys =>
      simp only [cmpCharList]
      rw [← natCompare_swap x.toNat y.toNat]
      rcases h : compare x.toNat y.toNat with _ | _ | _
      · rfl
      · exact ih ys
      · rfl

theorem cmpCharList_lt_trans : ∀ {a b c : List Char},
    cmpCharList a b = .lt → cmpCharList b c = .lt → cmpCharList a c = .lt := by
  intro a
  induction a with
  | nil =>
    intro b c h₁ h₂
    cases c with
    | nil =>
      cases b with
      | nil => exact h₂
      | cons y ys => exact Ordering.noConfusion h₂
    | cons z zs => rfl
  | cons x xs ih =>
    intro b c h₁ h₂
    cases b with
    | nil => exact Ordering.noConfusion h₁
    | cons y ys =>
      cases c with
      | nil => exact Ordering.noConfusion h₂
      | cons z zs =>
        simp only [cmpCharList] at h₁ h₂ ⊢
        rcases hxy : compare x.toNat y.toNat with _ | _ | _ <;> rw [hxy] at h₁
        · rcases hyz : compare y.toNat z.toNat with _ | _ | _ <;> rw [hyz] at h₂
          · rw [natCompare_lt_trans hxy hyz]
          · obtain rfl : y = z := char_eq_of_toNat_eq (Nat.compare_eq_eq.mp hyz)
            rw [hxy]
          · exact Ordering.noConfusion h₂
        · obtain rfl : x = y := char_eq_of_toNat_eq (Nat.compare_eq_eq.mp hxy)
          rcases hyz : compare x.toNat z.toNat with _ | _ | _ <;> rw [hyz] at h₂
          · exact ih h₁ h₂
          · exact Ordering.noConfusion h₂
        · exact Ordering.noConfusion h₁

theorem string_eq_of_data_eq {a b : String} (h : a.data = b.data) : a = b := by
  cases a; cases b; exact congrArg String.mk h

theorem cmpPreId_eq_iff : ∀ {a b : PreId}, cmpPreId a b = .eq ↔ a = b := by
  intro a b
  cases a <;> cases b <;> simp only [cmpPreId]
  · simp [Nat.compare_eq_eq]
  · constructor
    · intro h; exact Ordering.noConfusion h
    · intro h; exact PreId.noConfusion h
  · constructor
    · intro h; exact Ordering.noConfusion h
    · intro h; exact PreId.noConfusion h
  · rw [cmpCharList_eq_iff]
    constructor
    · intro h; rw [string_eq_of_data_eq h]
    · intro h; injection h with h2; rw [h2]

theorem cmpPreId_swap : ∀ (a b : PreId), (cmpPreId a b).swap = cmpPreId b a := by
  intro a b
  cases a <;> cases b <;> simp only [cmpPreId]
  · rw [natCompare_swap]
  · rfl
  · rfl
  · rw [cmpCharList_swap]

theorem cmpPreId_lt_trans : ∀ {a b c : PreId},
    cmpPreId a b = .lt → cmpPreId b c = .lt → cmpPreId a c = .lt := by
  intro a b c h₁ h₂
  cases a <;> cases b <;> cases c <;>
    first
      | rfl
      | exact Ordering.noConfusion h₁
      | exact Ordering.noConfusion h₂
      | exact natCompare_lt_trans h₁ h₂
      | exact cmpCharList_lt_trans h₁ h₂

theorem cmpIds_eq_iff : ∀ {a b : List PreId}, cmpIds a b = .eq ↔ a = b := by
  intro a
  induction a with
  | nil => intro b; cases b <;> simp [cmpIds]
  | cons x xs ih =>
    intro b
    cases b with
    | nil => simp [cmpIds]
    | cons y ys =>
      simp only [cmpIds]
      rcases h : cmpPreId x y with _ | _ | _
      · constructor
        · intro hf; exact Ordering.noConfusion hf
        · rintro heq
          injection heq with h1 h2
          subst h1
          rw [cmpPreId_eq_iff.mpr rfl] at h
          exact Ordering.noConfusion h
      · have hxy : x = y := cmpPreId_eq_iff.mp h
        subst hxy
        rw [ih]
        constructor
        · intro h2; rw [h2]
        · intro h2; injection h2
      · constructor
        · intro hf; exact Ordering.noConfusion hf
        · rintro heq
          injection heq with h1 h2
          subst h1
          rw [cmpPreId_eq_iff.mpr rfl] at h
          exact Ordering.noConfusion h

theorem cmpIds_swap : ∀ (a b : List PreId), (cmpIds a b).swap = cmpIds b a := by
  intro a
  induction a with
  | nil => intro b; cases b <;> rfl
  | cons x xs ih =>
    intro b
    cases b with
    | nil => rfl
    | cons y ys =>
      simp only [cmpIds]
      rw [← cmpPreId_swap x y]
      rcases h : cmpPreId x y with _ | _ | _
      · rfl
      · exact ih ys
      · rfl

theorem cmpIds_lt_trans : ∀ {a b c : List PreId},
    cmpIds a b = .lt → cmpIds b c = .lt → cmpIds a c = .lt := by
  intro a
  induction a with
  | nil =>
    intro b c h₁ h₂
    cases c with
    | nil =>
      cases b with
      | nil => exact h₂
      | cons y ys => exact Ordering.noConfusion h₂
    | cons z zs => rfl
  | cons x xs ih =>
    intro b c h₁ h₂
    cases b with
    | nil => exact Ordering.noConfusion h₁
    | cons y ys =>
      cases c with
      | nil => exact Ordering.noConfusion h₂
      | cons z zs =>
        simp only [cmpIds] at h₁ h₂ ⊢
        rcases hxy : cmpPreId x y with _ | _ | _ <;> rw [hxy] at h₁
        · rcases hyz : cmpPreId y z with _ | _ | _ <;> rw [hyz] at h₂
          · rw [cmpPreId_lt_trans hxy hyz]
          · obtain rfl : y = z := cmpPreId_eq_iff.mp hyz
            rw [hxy]
          · exact Ordering.noConfusion h₂
        · obtain rfl : x = y := cmpPreId_eq_iff.mp hxy
          rcases hyz : cmpPreId x z with _ | _ | _ <;> rw [hyz] at h₂
          · exact ih h₁ h₂
          · exact Ordering.noConfusion h₂
        · exact Ordering.noConfusion h₁

theorem comparePre_eq_iff : ∀ {a b : List PreId}, comparePre a b = .eq ↔ a = b := by
  intro a b
  cases a <;> cases b
  · simp [comparePre]
  · constructor
    · intro h; exact Ordering.noConfusion h
    · intro h; exact List.noConfusion h
  · constructor
    · intro h; exact Ordering.noConfusion h
    · intro h; exact List.noConfusion h
  · exact cmpIds_eq_iff

theorem comparePre_swap : ∀ (a b : List PreId), (comparePre a b).swap = comparePre b a := by
  intro a b
  cases a <;> cases b
  · rfl
  · rfl
  · rfl
  · exact cmpIds_swap _ _

theorem comparePre_lt_trans : ∀ {a b c : List PreId},
    comparePre a b = .lt → comparePre b c = .lt → comparePre a c = .lt := by
  intro a b c h₁ h₂
  cases a <;> cases b <;> cases c <;>
    first
      | rfl
      | exact Ordering.noConfusion h₁
      | exact Ordering.noConfusion h₂
      | exact cmpIds_lt_trans h₁ h₂

theorem ordThen_lt {o₁ o₂ : Ordering} :
    o₁.then o₂ = .lt ↔ o₁ = .lt ∨ (o₁ = .eq ∧ o₂ = .lt) := by
  cases o₁ <;> simp [Ordering.then]

theorem semverCompare_eq_iff {a b : SemVer} : semverCompare a b = .eq ↔ a = b := by
  unfold semverCompare
  rw [ordThen_eq_eq, ordThen_eq_eq, ordThen_eq_eq, Nat.compare_eq_eq,
    Nat.compare_eq_eq, Nat.compare_eq_eq, comparePre_eq_iff]
  constructor
  · rintro ⟨h1, h2, h3, h4⟩
    cases a; cases b; simp_all
  · rintro rfl; exact ⟨rfl, rfl, rfl, rfl⟩

theorem semverCompare_swap (a b : SemVer) :
    (semverCompare a b).swap = semverCompare b a := by
  unfold semverCompare
  rw [ordThen_swap, ordThen_swap, ordThen_swap, natCompare_swap, natCompare_swap,
    natCompare_swap, comparePre_swap]

theorem semverCompare_lt_trans {a b c : SemVer} (h₁ : semverCompare a b = .lt)
    (h₂ : semverCompare b c = .lt) : semverCompare a c = .lt := by
  unfold semverCompare at h₁ h₂ ⊢
  rw [ordThen_lt, ordThen_lt, ordThen_lt] at h₁ h₂ ⊢
  simp only [Nat.compare_eq_lt, Nat.compare_eq_eq] at h₁ h₂ ⊢
  rcases h₁ with h₁ | ⟨e₁, h₁ | ⟨e₂, h₁ | ⟨e₃, h₁⟩⟩⟩ <;>
    rcases h₂ with h₂ | ⟨f₁, h₂ | ⟨f₂, h₂ | ⟨f₃, h₂⟩⟩⟩ <;>
    first
      | exact Or.inl (by omega)
      | exact Or.inr ⟨by omega, Or.inl (by omega)⟩
      | exact Or.inr ⟨by omega, Or.inr ⟨by omega, Or.inl (by omega)⟩⟩
      | exact Or.inr ⟨by omega, Or.inr ⟨by omega, Or.inr
          ⟨by omega, comparePre_lt_trans h₁ h₂⟩⟩⟩

theorem semverCompare_le_trans {a b c : SemVer} (h₁ : semverCompare a b ≠ .gt)
    (h₂ : semverCompare b c ≠ .gt) : semverCompare a c ≠ .gt := by
  rcases hab : semverCompare a b with _ | _ | _
  · rcases hbc : semverCompare b c with _ | _ | _
    · rw [semverCompare_lt_trans hab hbc]; decide
    · obtain rfl : b = c := semverCompare_eq_iff.mp hbc
      rw [hab]; decide
    · exact absurd hbc h₂
  · obtain rfl : a = b := semverCompare_eq_iff.mp hab
    exact h₂
  · exact absurd hab h₁

theorem semverCompare_eq_of_not_gt {a b : SemVer} (h₁ : semverCompare a b ≠ .gt)
    (h₂ : semverCompare b a ≠ .gt) : a = b := by
  rcases h : semverCompare a b with _ | _ | _
  · exfalso
    apply h₂
    rw [← semverCompare_swap a b, h]
    rfl
  · exact semverCompare_eq_iff.mp h
  · exact absurd h h₁

theorem semverCompare_gt_of_lt {a b : SemVer} (h : semverCompare a b = .lt) :
    semverCompare b a = .gt := by
  rw [← semverCompare_swap a b, h]
  rfl

theorem semverCompare_refl (a : SemVer) : semverCompare a a = .eq :=
  semverCompare_eq_iff.mpr rfl

theorem semverLt_iff {a b : SemVer} :
    semverLt a b = true ↔ semverCompare a b = .lt := by
  simp [semverLt]

theorem semverGt_iff {a b : SemVer} :
    semverGt a b = true ↔ semverCompare a b = .gt := by
  simp [semverGt]

theorem qualVer_eq_some {cur : SemVer} {tag : String} {tv : SemVer} :
    qualVer cur tag = some tv ↔
      tagVersion tag = some tv ∧ semverCompare tv cur = .lt := by
  rcases h : tagVersion tag with _ | tv₁ <;> simp only [qualVer, h]
  · simp
  · by_cases hlt : semverLt tv₁ cur
    · rw [if_pos hlt]
      simp only [Option.some.injEq]
      constructor
      · rintro rfl; exact ⟨rfl, semverLt_iff.mp hlt⟩
      · rintro ⟨h1, _⟩; exact h1
    · rw [if_neg hlt]
      constructor
      · intro hf; exact Option.noConfusion hf
      · rintro ⟨h1, h2⟩
        injection h1 with h1
        subst h1
        exact absurd (semverLt_iff.mpr h2) hlt

/-- The loop state never falls back from `some` to `none`, and its version
only grows: the final version dominates any initial state. -/
theorem foldl_selectStep_mono (cur : SemVer) :
    ∀ (l : List String) (st : Option (String × SemVer)) (t₀ : String) (v₀ : SemVer)
      (t : String) (tv : SemVer),
      st = some (t₀, v₀) → l.foldl (selectStep cur) st = some (t, tv) →
      semverCompare v₀ tv ≠ .gt := by
  intro l
  induction l with
  | nil =>
    intro st t₀ v₀ t tv hst hr
    subst hst
    simp only [List.foldl_nil] at hr
    injection hr with h
    injection h with h1 h2
    subst h2
    rw [semverCompare_refl]
    decide
  | cons tag l ih =>
    intro st t₀ v₀ t tv hst hr
    subst hst
    simp only [List.foldl_cons] at hr
    rcases htv : tagVersion tag with _ | tv₁ <;>
      simp only [selectStep, htv] at hr
    · exact ih _ t₀ v₀ t tv rfl hr
    · by_cases hlt : semverLt tv₁ cur
      · rw [if_pos hlt] at hr
        by_cases hgt : semverGt tv₁ v₀
        · rw [if_pos hgt] at hr
          have h2 := ih _ tag tv₁ t tv rfl hr
          have hv₀ : semverCompare v₀ tv₁ ≠ .gt := by
            rw [← semverCompare_swap tv₁ v₀, semverGt_iff.mp hgt]
            decide
          exact semverCompare_le_trans hv₀ h2
        · rw [if_neg hgt] at hr
          exact ih _ t₀ v₀ t tv rfl hr
      · rw [if_neg hlt] at hr
        exact ih _ t₀ v₀ t tv rfl hr

/-- Every qualifying tag of the list has a version not above the version of
the loop's final candidate. -/
theorem foldl_selectStep_max (cur : SemVer) :
    ∀ (l : List String) (st : Option (String × SemVer)) (t : String) (tv : SemVer),
      l.foldl (selectStep cur) st = some (t, tv) →
      ∀ u ∈ l, ∀ uv, tagVersion u = some uv → semverCompare uv cur = .lt →
        semverCompare uv tv ≠ .gt := by
  intro l
  induction l with
  | nil =>
    intro st t tv hr u hu
    exact absurd hu (List.not_mem_nil u)
  | cons tag l ih =>
    intro st t tv hr u hu uv huv hlt
    simp only [List.foldl_cons] at hr
    rcases List.mem_cons.mp hu with rfl | hu2
    · rcases st with _ | ⟨t₀, pv⟩ <;> simp only [selectStep, huv] at hr <;>
        rw [if_pos (semverLt_iff.mpr hlt)] at hr
      · exact foldl_selectStep_mono cur l _ u uv t tv rfl hr
      · by_cases hgt : semverGt uv pv
        · rw [if_pos hgt] at hr
          exact foldl_selectStep_mono cur l _ u uv t tv rfl hr
        · rw [if_neg hgt] at hr
          have h2 := foldl_selectStep_mono cur l _ t₀ pv t tv rfl hr
          have h1 : semverCompare uv pv ≠ .gt := by
            intro hx; exact hgt (semverGt_iff.mpr hx)
          exact semverCompare_le_trans h1 h2
    · exact ih _ t tv hr u hu2 uv huv hlt

/-- The loop's final candidate is either the initial state or a qualifying
member of the list. -/
theorem foldl_selectStep_mem (cur : SemVer) :
    ∀ (l : List String) (st : Option (String × SemVer)) (t : String) (tv : SemVer),
      l.foldl (selectStep cur) st = some (t, tv) →
      st = some (t, tv) ∨
        (t ∈ l ∧ tagVersion t = some tv ∧ semverCompare tv cur = .lt) := by
  intro l
  induction l with
  | nil =>
    intro st t tv hr
    simp only [List.foldl_nil] at hr
    exact Or.inl hr
  | cons tag l ih =>
    intro st t tv hr
    simp only [List.foldl_cons] at hr
    rcases htv : tagVersion tag with _ | tv₁
    · simp only [selectStep, htv] at hr
      rcases ih _ t tv hr with h | ⟨h1, h2, h3⟩
      · exact Or.inl h
      · exact Or.inr ⟨List.mem_cons_of_mem tag h1, h2, h3⟩
    · by_cases hlt : semverLt tv₁ cur
      · have newcase :
            l.foldl (selectStep cur) (some (tag, tv₁)) = some (t, tv) →
              st = some (t, tv) ∨
                (t ∈ tag :: l ∧ tagVersion t = some tv ∧
                  semverCompare tv cur = .lt) := by
          intro hr₁
          rcases ih _ t tv hr₁ with h | ⟨h1, h2, h3⟩
          · injection h with h
            injection h with ha hb
            subst ha; subst hb
            exact Or.inr ⟨List.mem_cons_self _ _, htv, semverLt_iff.mp hlt⟩
          · exact Or.inr ⟨List.mem_cons_of_mem tag h1, h2, h3⟩
        rcases st with _ | ⟨t₀, pv⟩ <;> simp only [selectStep, htv] at hr <;>
          rw [if_pos hlt] at hr
        · exact newcase hr
        · by_cases hgt : semverGt tv₁ pv
          · rw [if_pos hgt] at hr
            exact newcase hr
          · rw [if_neg hgt] at hr
            rcases ih _ t tv hr with h | ⟨h1, h2, h3⟩
            · exact Or.inl h
            · exact Or.inr ⟨List.mem_cons_of_mem tag h1, h2, h3⟩
      · simp only [selectStep, htv] at hr
        rw [if_neg hlt] at hr
        rcases ih _ t tv hr with h | ⟨h1, h2, h3⟩
        · exact Or.inl h
        · exact Or.inr ⟨List.mem_cons_of_mem tag h1, h2, h3⟩

/-- The loop ends with no candidate exactly when it started with none and no
tag of the list qualifies. -/
theorem foldl_selectStep_none (cur : SemVer) :
    ∀ (l : List String) (st : Option (String × SemVer)),
      l.foldl (selectStep cur) st = none ↔
        st = none ∧ ∀ u ∈ l, qualVer cur u = none := by
  intro l
  induction l with
  | nil =>
    intro st
    simp
  | cons tag l ih =>
    intro st
    simp only [List.foldl_cons]
    rcases htv : tagVersion tag with _ | tv₁
    · simp only [selectStep, htv]
      rw [ih]
      have hq : qualVer cur tag = none := by
        simp only [qualVer, htv]
      constructor
      · rintro ⟨h1, h2⟩
        refine ⟨h1, fun u hu => ?_⟩
        rcases List.mem_cons.mp hu with rfl | hu2
        · exact hq
        · exact h2 u hu2
      · rintro ⟨h1, h2⟩
        exact ⟨h1, fun u hu => h2 u (List.mem_cons_of_mem tag hu)⟩
    · by_cases hlt : semverLt tv₁ cur
      · have hq : qualVer cur tag = some tv₁ := by
          simp only [qualVer, htv]
          rw [if_pos hlt]
        constructor
        · intro hr
          exfalso
          have hnone : ∀ st₁ : Option (String × SemVer),
              l.foldl (selectStep cur) st₁ = none → st₁ = none := by
            intro st₁ h
            exact ((ih st₁).mp h).1
          rcases st with _ | ⟨t₀, pv⟩ <;> simp only [selectStep, htv] at hr <;>
            rw [if_pos hlt] at hr
          · exact Option.noConfusion (hnone _ hr)
          · by_cases hgt : semverGt tv₁ pv
            · rw [if_pos hgt] at hr
              exact Option.noConfusion (hnone _ hr)
            · rw [if_neg hgt] at hr
              exact Option.noConfusion (hnone _ hr)
        · rintro ⟨h1, h2⟩
          exfalso
          have := h2 tag (List.mem_cons_self _ _)
          rw [hq] at this
          exact Option.noConfusion this
      · simp only [selectStep, htv]
        rw [if_neg hlt, ih]
        have hq : qualVer cur tag = none := by
          simp only [qualVer, htv]
          rw [if_neg hlt]
        constructor
        · rintro ⟨h1, h2⟩
          refine ⟨h1, fun u hu => ?_⟩
          rcases List.mem_cons.mp hu with rfl | hu2
          · exact hq
          · exact h2 u hu2
        · rintro ⟨h1, h2⟩
          exact ⟨h1, fun u hu => h2 u (List.mem_cons_of_mem tag hu)⟩

theorem selectPrevTag_eq_none {cur : SemVer} {tags : List String} :
    selectPrevTag cur tags = none ↔ ∀ u ∈ tags, qualVer cur u = none := by
  unfold selectPrevTag
  rw [Option.map_eq_none']
  rw [foldl_selectStep_none]
  simp

theorem selectPrevTag_eq_some {cur : SemVer} {tags : List String} {t : String} :
    selectPrevTag cur tags = some t ↔
      ∃ tv, tags.foldl (selectStep cur) none = some (t, tv) := by
  unfold selectPrevTag
  constructor
  · intro h
    rcases hf : tags.foldl (selectStep cur) none with _ | ⟨t₁, tv⟩
    · rw [hf] at h; exact Option.noConfusion h
    · rw [hf] at h
      injection h with h
      subst h
      exact ⟨tv, rfl⟩
  · rintro ⟨tv, h⟩
    rw [h]
    rfl

/-- C1: with a parseable current version and the sorted tag listing
succeeding, `findPreviousReleaseTag` returns null when the version is
unparseable, when the listing is empty, or when no tag qualifies; when some
tag qualifies it returns a tag of the listing — the original tag string —
whose extracted suffix parses strictly below the current version and is
maximal among all qualifying tags. -/
theorem c1_findPreviousReleaseTag_correct
    (w : GitWorld) (v pat out : String)
    (hout : w.run (.tagListSorted pat) = .ok out) :
    (semverParse v = none → findPreviousReleaseTag w v pat = .ok none) ∧
    (splitTags out = [] → findPreviousReleaseTag w v pat = .ok none) ∧
    (∀ cur, semverParse v = some cur →
      ((∀ u ∈ splitTags out, qualVer cur u = none) →
          findPreviousReleaseTag w v pat = .ok none) ∧
      ((∃ u ∈ splitTags out, qualVer cur u ≠ none) →
          ∃ t, findPreviousReleaseTag w v pat = .ok (some t)) ∧
      (∀ t, findPreviousReleaseTag w v pat = .ok (some t) →
          t ∈ splitTags out ∧
          ∃ tv, tagVersion t = some tv ∧ semverCompare tv cur = .lt ∧
            ∀ u ∈ splitTags out, ∀ uv, tagVersion u = some uv →
              semverCompare uv cur = .lt → semverCompare uv tv ≠ .gt)) := by
  have hlist : listTagsResult w pat = .ok (splitTags out) := by
    unfold listTagsResult
    rw [hout]
  refine ⟨?_, ?_, ?_⟩
  · intro hv
    unfold findPreviousReleaseTag findPreviousReleaseTagBody
    rw [hv]
  · intro hempty
    unfold findPreviousReleaseTag findPreviousReleaseTagBody
    rcases hv : semverParse v with _ | cur
    · rfl
    · rw [hlist, hempty]
      rfl
  · intro cur hv
    have hbody : findPreviousReleaseTagBody w v pat =
        (if (splitTags out).isEmpty then Except.ok none
         else .ok (selectPrevTag cur (splitTags out))) := by
      unfold findPreviousReleaseTagBody
      rw [hv, hlist]
    have hfull : findPreviousReleaseTag w v pat =
        (if (splitTags out).isEmpty then Except.ok none
         else .ok (selectPrevTag cur (splitTags out))) := by
      unfold findPreviousReleaseTag
      rw [hbody]
      by_cases he : (splitTags out).isEmpty
      · rw [if_pos he]
      · rw [if_neg he]
    refine ⟨?_, ?_, ?_⟩
    · intro hall
      have hsel : selectPrevTag cur (splitTags out) = none :=
        selectPrevTag_eq_none.mpr hall
      rw [hfull]
      split_ifs with he
      · rfl
      · rw [hsel]
    · rintro ⟨u, hu, hq⟩
      have he : (splitTags out).isEmpty = false := by
        rcases hch : splitTags out with _ | ⟨a, l⟩
        · rw [hch] at hu; exact absurd hu (List.not_mem_nil u)
        · rfl
      rcases hf : (splitTags out).foldl (selectStep cur) none with _ | ⟨t, tv⟩
      · exfalso
        exact hq (((foldl_selectStep_none cur _ none).mp hf).2 u hu)
      · refine ⟨t, ?_⟩
        rw [hfull, if_neg (by rw [he]; exact Bool.false_ne_true)]
        unfold selectPrevTag
        rw [hf]
        rfl
    · intro t hres
      rw [hfull] at hres
      by_cases he : (splitTags out).isEmpty
      · rw [if_pos he] at hres
        injection hres with hres
        exact absurd hres (by intro hx; exact Option.noConfusion hx)
      · rw [if_neg he] at hres
        injection hres with hres
        rcases selectPrevTag_eq_some.mp hres with ⟨tv, hf⟩
        rcases foldl_selectStep_mem cur _ none t tv hf with h | ⟨h1, h2, h3⟩
        · exact Option.noConfusion h
        · exact ⟨h1, tv, h2, h3, foldl_selectStep_max cur _ none t tv hf⟩

theorem c1_findPreviousReleaseTag_correct_witness :
    ∃ t, findPreviousReleaseTag cw1 "2.1.0" "v*" = .ok (some t) := by
  have h := c1_findPreviousReleaseTag_correct cw1 "2.1.0" "v*"
    "v2.1.0\nv2.0.0\nv1.9.0" (by rfl)
  exact (h.2.2 ⟨2, 1, 0, []⟩ (by decide)).2.1 ⟨"v2.0.0", by decide, by decide⟩

/-- With pairwise-distinct tag versions the selection loop is insensitive to
the iteration order. -/
theorem selectPrevTag_perm (cur : SemVer) (l₁ l₂ : List String)
    (hperm : l₁.Perm l₂)
    (hdist : ∀ t₁ ∈ l₁, ∀ t₂ ∈ l₁,
      tagVersion t₁ = tagVersion t₂ → tagVersion t₁ = none ∨ t₁ = t₂) :
    selectPrevTag cur l₁ = selectPrevTag cur l₂ := by
  rcases hf₁ : l₁.foldl (selectStep cur) none with _ | ⟨t, tv⟩ <;>
    rcases hf₂ : l₂.foldl (selectStep cur) none with _ | ⟨u, uv⟩
  · unfold selectPrevTag; rw [hf₁, hf₂]
  · exfalso
    have hall := ((foldl_selectStep_none cur l₁ none).mp hf₁).2
    rcases foldl_selectStep_mem cur l₂ none u uv hf₂ with h | ⟨h1, h2, h3⟩
    · exact Option.noConfusion h
    · have heq : qualVer cur u = some uv := qualVer_eq_some.mpr ⟨h2, h3⟩
      rw [hall u (hperm.mem_iff.mpr h1)] at heq
      exact Option.noConfusion heq
  · exfalso
    have hall := ((foldl_selectStep_none cur l₂ none).mp hf₂).2
    rcases foldl_selectStep_mem cur l₁ none t tv hf₁ with h | ⟨h1, h2, h3⟩
    · exact Option.noConfusion h
    · have heq : qualVer cur t = some tv := qualVer_eq_some.mpr ⟨h2, h3⟩
      rw [hall t (hperm.mem_iff.mp h1)] at heq
      exact Option.noConfusion heq
  · rcases foldl_selectStep_mem cur l₁ none t tv hf₁ with h | ⟨ht1, ht2, ht3⟩
    · exact absurd h (fun hx => Option.noConfusion hx)
    rcases foldl_selectStep_mem cur l₂ none u uv hf₂ with h | ⟨hu1, hu2, hu3⟩
    · exact absurd h (fun hx => Option.noConfusion hx)
    have hu1l : u ∈ l₁ := hperm.mem_iff.mpr hu1
    have d₁ : semverCompare uv tv ≠ .gt :=
      foldl_selectStep_max cur l₁ none t tv hf₁ u hu1l uv hu2 hu3
    have d₂ : semverCompare tv uv ≠ .gt :=
      foldl_selectStep_max cur l₂ none u uv hf₂ t (hperm.mem_iff.mp ht1) tv ht2 ht3
    have hveq : uv = tv := semverCompare_eq_of_not_gt d₁ d₂
    have hsame : tagVersion u = tagVersion t := by rw [hu2, ht2, hveq]
    have hteq : u = t := by
      rcases hdist u hu1l t ht1 hsame with hn | he
      · rw [hu2] at hn; exact Option.noConfusion hn
      · exact he
    unfold selectPrevTag
    rw [hf₁, hf₂, hteq, hveq]

/-- C10: when no two tags of the listing parse to the same version, the
result of `findPreviousReleaseTag` does not depend on the order of the tag
listing; in particular a run taking the git-sorted primary listing and a
run taking the manually sorted fallback listing of a permuted tag set
return the same tag. -/
theorem c10_findPreviousReleaseTag_order_invariant
    (w₁ w₂ : GitWorld) (v pat out₁ out₂ e : String)
    (h₁ : w₁.run (.tagListSorted pat) = .ok out₁)
    (h₂s : w₂.run (.tagListSorted pat) = .error e)
    (h₂ : w₂.run (.tagList pat) = .ok out₂)
    (hperm : (splitTags out₁).Perm (splitTags out₂))
    (hdist : ∀ t₁ ∈ splitTags out₁, ∀ t₂ ∈ splitTags out₁,
      tagVersion t₁ = tagVersion t₂ → tagVersion t₁ = none ∨ t₁ = t₂) :
    findPreviousReleaseTag w₁ v pat = findPreviousReleaseTag w₂ v pat := by
  have hl₁ : listTagsResult w₁ pat = .ok (splitTags out₁) := by
    unfold listTagsResult; rw [h₁]
  have hl₂ : listTagsResult w₂ pat = .ok (manualSortTags (splitTags out₂)) := by
    unfold listTagsResult; rw [h₂s, h₂]
  have hperm2 : (splitTags out₁).Perm (manualSortTags (splitTags out₂)) :=
    hperm.trans (List.mergeSort_perm (splitTags out₂) tagSortLe).symm
  rcases hv : semverParse v with _ | cur <;>
    simp only [findPreviousReleaseTag, findPreviousReleaseTagBody, hv, hl₁, hl₂]
  have hie : (splitTags out₁).isEmpty = (manualSortTags (splitTags out₂)).isEmpty := by
    rcases hx : splitTags out₁ with _ | ⟨a, l⟩ <;>
      rcases hy : manualSortTags (splitTags out₂) with _ | ⟨b, m⟩
    · rfl
    · exfalso
      have hlen := hperm2.length_eq
      rw [hx, hy] at hlen
      simp at hlen
    · exfalso
      have hlen := hperm2.length_eq
      rw [hx, hy] at hlen
      simp at hlen
    · rfl
  by_cases he : (splitTags out₁).isEmpty
  · rw [if_pos he, if_pos (hie ▸ he)]
  · rw [if_neg he, if_neg (hie ▸ he)]
    rw [selectPrevTag_perm cur _ _ hperm2 hdist]

theorem c10_findPreviousReleaseTag_order_invariant_witness :
    findPreviousReleaseTag cw10a "2.1.0" "v*" =
      findPreviousReleaseTag cw10b "2.1.0" "v*" :=
  c10_findPreviousReleaseTag_order_invariant cw10a cw10b "2.1.0" "v*"
    "v2.1.0\nv2.0.0\nv1.9.0" "v1.9.0\nv2.1.0\nv2.0.0" "unsupported sort flag"
    (by rfl) (by rfl) (by rfl) (by decide) (by decide)

theorem isValidGitRemoteName_not_dash {r : String}
    (h : isValidGitRemoteName r = true) : jsStartsWith r "-" = false := by
  unfold isValidGitRemoteName at h
  cases hx : jsStartsWith r "-"
  · rfl
  · rw [hx] at h
    simp at h

/-- Any run of `safeSyncBranchWithRemote` with valid names, a successful
fetch, both branches existing, and (when a switch is needed) a clean tree
and a successful checkout, reaches the pull phase. -/
theorem safeSync_eq_pullPhase
    (w : GitWorld) (branchName remote cb fo : String)
    (hrm : isValidGitRemoteName remote = true)
    (hbr : validateGitRef branchName = true)
    (hrr : validateGitRef remote = true)
    (hcb : w.run .showCurrentBranch = .ok cb)
    (hf : w.run (.fetch remote) = .ok fo)
    (hle : (localBranchExistsT w branchName).1 = true)
    (hre : (remoteBranchExistsT w branchName remote).1 = true)
    (hsw : (String.mk (trimChars cb.data) != branchName) = true →
      ∃ st co, w.run .statusPorcelain = .ok st ∧
        (String.mk (trimChars st.data) != "") = false ∧
        w.run (.checkout branchName) = .ok co) :
    ∃ tr, safeSyncBranchWithRemote w branchName remote =
      pullPhase w branchName remote (String.mk (trimChars cb.data))
        (String.mk (trimChars cb.data) != branchName) tr := by
  have hnd : jsStartsWith remote "-" = false := isValidGitRemoteName_not_dash hrm
  by_cases hneq : (String.mk (trimChars cb.data) != branchName) = true
  · obtain ⟨st, co, hst, hclean, hco⟩ := hsw hneq
    refine ⟨[GitCmd.showCurrentBranch, .fetch remote] ++
      (localBranchExistsT w branchName).2 ++
      (remoteBranchExistsT w branchName remote).2 ++
      [GitCmd.statusPorcelain, .checkout branchName], ?_⟩
    simp only [safeSyncBranchWithRemote, hrm, hbr, hrr, hnd, hcb, hf, hle, hre,
      hneq, hst, hclean, hco, Bool.not_true, Bool.false_eq_true, if_false,
      Bool.true_eq_false]
    rw [if_pos trivial]
  · have hneqf : (String.mk (trimChars cb.data) != branchName) = false :=
      Bool.eq_false_iff.mpr (fun hx => hneq hx)
    refine ⟨[GitCmd.showCurrentBranch, .fetch remote] ++
      (localBranchExistsT w branchName).2 ++
      (remoteBranchExistsT w branchName remote).2, ?_⟩
    simp only [safeSyncBranchWithRemote, hrm, hbr, hrr, hnd, hcb, hf, hle, hre,
      hneqf, Bool.not_true, Bool.false_eq_true, if_false, Bool.true_eq_false]

/-! ## Substring facts about the error messages -/
theorem isPrefixOf_append_self [BEq α] [LawfulBEq α] (sub post : List α) :
    sub.isPrefixOf (sub ++ post) = true := by
  induction sub with
  | nil => simp [List.isPrefixOf]
  | cons c cs ih => simp [List.isPrefixOf, ih]

theorem containsSeq_nilsub [BEq α] (l : List α) : containsSeq l [] = true := by
  cases l <;> simp [containsSeq, List.isPrefixOf]

theorem containsSeq_parts [BEq α] [LawfulBEq α] (pre sub post : List α) :
    containsSeq (pre ++ sub ++ post) sub = true := by
  induction pre with
  | nil =>
    simp only [List.nil_append]
    rcases sub with _ | ⟨c, cs⟩
    · exact containsSeq_nilsub post
    · rw [List.cons_append]
      unfold containsSeq
      have h := isPrefixOf_append_self (c :: cs) post
      rw [List.cons_append] at h
      rw [h]
      simp
  | cons p ps ih =>
    simp only [List.cons_append]
    unfold containsSeq
    rw [← List.cons_append]
    simp only [List.cons_append] at ih ⊢
    rw [ih]
    simp

theorem strContains_parts (pre sub post : String) :
    strContains (pre ++ sub ++ post) sub = true := by
  unfold strContains
  rw [String.data_append, String.data_append]
  exact containsSeq_parts pre.data sub.data post.data

theorem strContains_of_eq (pre sub post : String) {s : String}
    (h : s = pre ++ sub ++ post) : strContains s sub = true := by
  rw [h]
  exact strContains_parts pre sub post

theorem conflictMsg_names_branch (b r : String) :
    strContains (conflictMsg b r) b = true := by
  apply strContains_of_eq ("Branch " ++ sq) b
    ((sq ++ " has diverged from " ++ sq) ++ (r ++ "/" ++ b) ++
      (sq ++ " and requires manual conflict resolution"))
  apply string_eq_of_data_eq
  simp [conflictMsg, String.data_append, List.append_assoc]

theorem conflictMsg_names_pair (b r : String) :
    strContains (conflictMsg b r) (r ++ "/" ++ b) = true := by
  apply strContains_of_eq (("Branch " ++ sq) ++ b ++ (sq ++ " has diverged from " ++ sq))
    (r ++ "/" ++ b) (sq ++ " and requires manual conflict resolution")
  apply string_eq_of_data_eq
  simp [conflictMsg, String.data_append, List.append_assoc]

theorem syncFailMsg_carries_text (b e : String) :
    strContains (syncFailMsg b e) e = true := by
  apply strContains_of_eq ("Failed to sync branch " ++ sq ++ b ++ sq ++ ": ") e ""
  apply string_eq_of_data_eq
  simp [syncFailMsg, String.data_append, List.append_assoc]

theorem uncommittedMsg_contains (b : String) :
    strContains (uncommittedChangesMsg b) "uncommitted changes" = true := by
  apply strContains_of_eq (("Cannot switch to branch " ++ sq) ++ b ++
    (sq ++ " because you have ")) "uncommitted changes"
    ". Please commit or stash your changes first."
  apply string_eq_of_data_eq
  simp [uncommittedChangesMsg, String.data_append, List.append_assoc]

theorem handlePullError_fst (b r o : String) (nts : Bool) (e : String)
    (tr : List GitCmd) :
    (handlePullError b r o nts e tr).1 =
      if hasConflictMarker e then
        { success := false, error := some (conflictMsg b r),
          conflictResolutionRequired := some true }
      else { success := false, error := some (syncFailMsg b e) } := by
  unfold handlePullError
  by_cases h : hasConflictMarker e <;> simp [h]

/-- C5: whenever a run reaches the fast-forward-only pull and the pull
rejects with error text `e`, the result is a conflict-resolution failure
precisely when `e` contains one of the four case-sensitive marker
substrings, with a message naming the branch and the remote/branch pair;
any other pull failure yields a plain failure carrying the underlying
error text, without `conflictResolutionRequired`. -/
theorem c5_safeSync_pull_failure_classification
    (w : GitWorld) (branchName remote cb fo e : String)
    (hrm : isValidGitRemoteName remote = true)
    (hbr : validateGitRef branchName = true)
    (hrr : validateGitRef remote = true)
    (hcb : w.run .showCurrentBranch = .ok cb)
    (hf : w.run (.fetch remote) = .ok fo)
    (hle : (localBranchExistsT w branchName).1 = true)
    (hre : (remoteBranchExistsT w branchName remote).1 = true)
    (hsw : (String.mk (trimChars cb.data) != branchName) = true →
      ∃ st co, w.run .statusPorcelain = .ok st ∧
        (String.mk (trimChars st.data) != "") = false ∧
        w.run (.checkout branchName) = .ok co)
    (hpull : w.run (.pullFFOnly remote branchName) = .error e) :
    ((safeSyncBranchWithRemote w branchName remote).1 =
      if hasConflictMarker e then
        { success := false, error := some (conflictMsg branchName remote),
          conflictResolutionRequired := some true }
      else
        { success := false, error := some (syncFailMsg branchName e),
          conflictResolutionRequired := none }) ∧
    (hasConflictMarker e =
      (strContains e "diverged" || strContains e "non-fast-forward" ||
        strContains e "conflict" || strContains e "CONFLICT")) ∧
    strContains (conflictMsg branchName remote) branchName = true ∧
    strContains (conflictMsg branchName remote) (remote ++ "/" ++ branchName) = true ∧
    strContains (syncFailMsg branchName e) e = true := by
  obtain ⟨tr, heq⟩ := safeSync_eq_pullPhase w branchName remote cb fo
    hrm hbr hrr hcb hf hle hre hsw
  refine ⟨?_, ?_, conflictMsg_names_branch branchName remote,
    conflictMsg_names_pair branchName remote, syncFailMsg_carries_text branchName e⟩
  · rw [heq]
    simp only [pullPhase, hpull]
    exact handlePullError_fst branchName remote _ _ e _
  · simp [hasConflictMarker, conflictMarkers, Bool.or_assoc]

theorem c5_safeSync_pull_failure_classification_witness :
    (safeSyncBranchWithRemote cw5 "feature" "origin").1 =
      { success := false, error := some (conflictMsg "feature" "origin"),
        conflictResolutionRequired := some true } := by
  have h := (c5_safeSync_pull_failure_classification cw5 "feature" "origin"
    "feature" "" "fatal: Not possible to fast-forward, branches have diverged"
    (by decide) (by decide) (by decide) (by rfl) (by rfl) (by decide) (by decide)
    (by intro hx; exact absurd hx (by decide)) (by rfl)).1
  rw [h]
  rw [if_pos (by decide)]

/-- C6: a remote argument that starts with a dash or fails the remote-name
character-class predicate is rejected with an error carrying the invalid
remote name, and no subprocess at all is invoked. -/
theorem c6_safeSync_invalid_remote_rejected
    (w : GitWorld) (branchName remote : String)
    (h : jsStartsWith remote "-" = true ∨
      ¬(remote.data.length > 0 ∧ remote.data.all isRefChar = true)) :
    safeSyncBranchWithRemote w branchName remote =
      ({ success := false,
         error := some ("Invalid remote name: " ++ sq ++ remote ++ sq) }, []) := by
  have hinv : isValidGitRemoteName remote = false := by
    cases hval : isValidGitRemoteName remote
    · rfl
    · exfalso
      unfold isValidGitRemoteName at hval
      simp only [Bool.and_eq_true, decide_eq_true_eq, Bool.not_eq_true] at hval
      rcases h with h | h
      · rw [h] at hval
        exact Bool.noConfusion hval.1.2
      · exact h ⟨hval.1.1, hval.2⟩
  unfold safeSyncBranchWithRemote
  rw [hinv]
  rfl

theorem c6_safeSync_invalid_remote_rejected_witness :
    safeSyncBranchWithRemote cw5 "feature" "--evil" =
      ({ success := false,
         error := some ("Invalid remote name: " ++ sq ++ "--evil" ++ sq) }, []) :=
  c6_safeSync_invalid_remote_rejected cw5 "feature" "--evil" (Or.inl (by decide))

theorem isValidGitRefSilentT_no_checkout (w : GitWorld) (ref : String) :
    ∀ b, GitCmd.checkout b ∉ (isValidGitRefSilentT w ref).2 := by
  intro b
  unfold isValidGitRefSilentT
  by_cases h : validateGitRef ref
  · rw [if_pos h]
    rcases w.run (.revParseVerify ref) with e | s <;> simp
  · rw [if_neg h]
    simp

/-- C7: when the remote and local branches exist, the checked-out branch
differs from the target, and the working tree is dirty, the sync aborts
with the uncommitted-changes error — whose text contains the phrase
`uncommitted changes` — and the issued subprocess trace contains no
checkout. -/
theorem c7_safeSync_dirty_switch_aborts
    (w : GitWorld) (branchName remote cb fo st : String)
    (hrm : isValidGitRemoteName remote = true)
    (hbr : validateGitRef branchName = true)
    (hrr : validateGitRef remote = true)
    (hcb : w.run .showCurrentBranch = .ok cb)
    (hf : w.run (.fetch remote) = .ok fo)
    (hle : (localBranchExistsT w branchName).1 = true)
    (hre : (remoteBranchExistsT w branchName remote).1 = true)
    (hneq : (String.mk (trimChars cb.data) != branchName) = true)
    (hst : w.run .statusPorcelain = .ok st)
    (hdirty : (String.mk (trimChars st.data) != "") = true) :
    (safeSyncBranchWithRemote w branchName remote).1 =
      { success := false, error := some (uncommittedChangesMsg branchName) } ∧
    strContains (uncommittedChangesMsg branchName) "uncommitted changes" = true ∧
    ∀ b, GitCmd.checkout b ∉ (safeSyncBranchWithRemote w branchName remote).2 := by
  have hnd : jsStartsWith remote "-" = false := isValidGitRemoteName_not_dash hrm
  have heq : safeSyncBranchWithRemote w branchName remote =
      ({ success := false, error := some (uncommittedChangesMsg branchName) },
        [GitCmd.showCurrentBranch, .fetch remote] ++
          (localBranchExistsT w branchName).2 ++
          (remoteBranchExistsT w branchName remote).2 ++ [GitCmd.statusPorcelain]) := by
    simp only [safeSyncBranchWithRemote, hrm, hbr, hrr, hnd, hcb, hf, hle, hre,
      hneq, hst, hdirty, Bool.not_true, Bool.false_eq_true, if_false,
      Bool.true_eq_false, if_true]
  refine ⟨by rw [heq], uncommittedMsg_contains branchName, ?_⟩
  intro b hb
  rw [heq] at hb
  simp only [localBranchExistsT, remoteBranchExistsT] at hb
  have h₁ := isValidGitRefSilentT_no_checkout w ("refs/heads/" ++ branchName) b
  have h₂ :=
    isValidGitRefSilentT_no_checkout w ("refs/remotes/" ++ remote ++ "/" ++ branchName) b
  simp [List.mem_append, h₁, h₂] at hb

theorem c7_safeSync_dirty_switch_aborts_witness :
    (safeSyncBranchWithRemote cw7 "feature-branch" "origin").1 =
      { success := false, error := some (uncommittedChangesMsg "feature-branch") } ∧
    GitCmd.checkout "feature-branch" ∉
      (safeSyncBranchWithRemote cw7 "feature-branch" "origin").2 := by
  have h := c7_safeSync_dirty_switch_aborts cw7 "feature-branch" "origin"
    "main" "" "M  modified.txt" (by decide) (by decide) (by decide) (by rfl)
    (by rfl) (by decide) (by decide) (by decide) (by rfl) (by decide)
  exact ⟨h.1, h.2.2 "feature-branch"⟩

/-- C2 counterexample: a run in which a switch was performed, the
fast-forward-only pull succeeded, and only the restoring checkout fails,
returns `success = false` (with the generic sync-failure message built
from the checkout error), not `success = true` as claimed. -/
theorem c2_counterexample_checkout_back_failure :
    (safeSyncBranchWithRemote cw2 "feature" "origin").1.success = false ∧
    (safeSyncBranchWithRemote cw2 "feature" "origin").1 =
      { success := false,
        error := some
          (syncFailMsg "feature" "git checkout main failed with exit code 1") } ∧
    cw2.run (.pullFFOnly "origin" "feature") = .ok "" ∧
    cw2.run (.checkout "main") =
      .error "git checkout main failed with exit code 1" := by
  refine ⟨?_, ?_, rfl, rfl⟩ <;> decide

/-- C2 amended: when a switch was performed and the fast-forward-only pull
succeeds, a rejection of the checkout back to the original branch is
caught by the pull-error handler: the function returns `success = false`,
classifying the checkout error text with the same conflict-substring test
(a retry of the restoring checkout is attempted and its failure is only
logged). -/
theorem c2_amended_checkout_back_failure
    (w : GitWorld) (branchName remote cb fo po e : String)
    (hrm : isValidGitRemoteName remote = true)
    (hbr : validateGitRef branchName = true)
    (hrr : validateGitRef remote = true)
    (hcb : w.run .showCurrentBranch = .ok cb)
    (hf : w.run (.fetch remote) = .ok fo)
    (hle : (localBranchExistsT w branchName).1 = true)
    (hre : (remoteBranchExistsT w branchName remote).1 = true)
    (hneq : (String.mk (trimChars cb.data) != branchName) = true)
    (hclean : ∃ st co, w.run .statusPorcelain = .ok st ∧
      (String.mk (trimChars st.data) != "") = false ∧
      w.run (.checkout branchName) = .ok co)
    (hpull : w.run (.pullFFOnly remote branchName) = .ok po)
    (horig : (String.mk (trimChars cb.data) != "") = true)
    (hcoback : w.run (.checkout (String.mk (trimChars cb.data))) = .error e) :
    (safeSyncBranchWithRemote w branchName remote).1 =
      if hasConflictMarker e then
        { success := false, error := some (conflictMsg branchName remote),
          conflictResolutionRequired := some true }
      else { success := false, error := some (syncFailMsg branchName e) } := by
  obtain ⟨tr, heq⟩ := safeSync_eq_pullPhase w branchName remote cb fo
    hrm hbr hrr hcb hf hle hre (fun _ => hclean)
  rw [heq]
  simp only [pullPhase, hpull, hneq, horig, Bool.and_self, if_true, hcoback]
  exact handlePullError_fst branchName remote _ _ e _

theorem c2_amended_checkout_back_failure_witness :
    (safeSyncBranchWithRemote cw2 "feature" "origin").1 =
      { success := false,
        error := some
          (syncFailMsg "feature" "git checkout main failed with exit code 1") } := by
  have h := c2_amended_checkout_back_failure cw2 "feature" "origin" "main" "" ""
    "git checkout main failed with exit code 1" (by decide) (by decide) (by decide)
    (by rfl) (by rfl) (by decide) (by decide) (by decide)
    ⟨"", "", by rfl, by decide, by rfl⟩ (by rfl) (by decide) (by rfl)
  rw [h]
  rw [if_neg (by decide)]

/-- C3 counterexample: reading the version from HEAD does not yield a
version string — the file validates but has no version field — and the
working-directory package.json does carry version 1.2.3, yet
`getCurrentVersion` returns null without falling back: the fallback runs
only when the HEAD read rejects. -/
theorem c3_counterexample_no_fallback_on_missing_version :
    cw3.run .showHeadPackageJson = .ok headPkgStr ∧
    safeJsonParse cw3 headPkgStr "package.json" = .ok headPkgJson ∧
    validatePackageJson headPkgJson "package.json" = .ok headPkgJson ∧
    headPkgJson.getField "version" = none ∧
    wdVersionFallback cw3 = some (.str "1.2.3") ∧
    getCurrentVersion cw3 = .ok none :=
  ⟨rfl, rfl, rfl, rfl, rfl, rfl⟩

/-- C3 amended: `getCurrentVersion` falls back to the working-directory
package.json exactly when the HEAD attempt rejects (show failure, parse
failure, or validation failure); when HEAD's package.json validates, the
HEAD result — null if the version field is absent or falsy — is returned
without consulting the working directory. -/
theorem c3_amended_getCurrentVersion_fallback (w : GitWorld) :
    (∀ e, headVersionAttempt w = .error e →
      getCurrentVersion w = .ok (wdVersionFallback w)) ∧
    (∀ r, headVersionAttempt w = .ok r → getCurrentVersion w = .ok r) ∧
    (∀ out pj v, w.run .showHeadPackageJson = .ok out →
      safeJsonParse w out "package.json" = .ok pj →
      validatePackageJson pj "package.json" = .ok v →
      jsTruthy (v.getField "version") = false →
      getCurrentVersion w = .ok none) := by
  refine ⟨?_, ?_, ?_⟩
  · intro e h
    simp only [getCurrentVersion, h]
  · intro r h
    simp only [getCurrentVersion, h]
  · intro out pj v h1 h2 h3 h4
    have hhead : headVersionAttempt w = .ok none := by
      simp only [headVersionAttempt, h1, h2, h3, h4, Bool.false_eq_true, if_false]
    simp only [getCurrentVersion, hhead]

theorem c3_amended_getCurrentVersion_fallback_witness :
    getCurrentVersion cw3 = .ok none :=
  (c3_amended_getCurrentVersion_fallback cw3).2.2 headPkgStr headPkgJson
    headPkgJson rfl rfl rfl rfl

/-- C4: for every world and every input, the three read-only queries
resolve — they never reject — and each converts internal failure into
its degraded result: a null tag, an error-flagged `SyncStatus` with both
existence flags false, and the unknown-branch error summary. -/
theorem c4_read_only_queries_never_raise
    (w : GitWorld) (v pat branchName remote : String) (wd : Option String) :
    (∃ r, findPreviousReleaseTag w v pat = .ok r) ∧
    (∃ s, isBranchInSyncWithRemote w branchName remote = .ok s) ∧
    (∃ g, getGitStatusSummary w wd = .ok g) ∧
    (∀ e₁ e₂, w.run (.tagListSorted pat) = .error e₁ →
      w.run (.tagList pat) = .error e₂ →
      findPreviousReleaseTag w v pat = .ok none) ∧
    (∀ e, isBranchInSyncBody w branchName remote = .error e →
      isBranchInSyncWithRemote w branchName remote =
        .ok { inSync := false, localExists := false, remoteExists := false,
              error := some ("Failed to check branch sync: " ++ e) }) ∧
    (∀ e, statusAttempt w wd = .error e →
      getGitStatusSummary w wd = .ok errorStatusSummary) := by
  refine ⟨?_, ?_, ?_, ?_, ?_, ?_⟩
  · rcases hb : findPreviousReleaseTagBody w v pat with e | r
    · exact ⟨none, by simp only [findPreviousReleaseTag, hb]⟩
    · exact ⟨r, by simp only [findPreviousReleaseTag, hb]⟩
  · rcases hb : isBranchInSyncBody w branchName remote with e | s
    · have hres : isBranchInSyncWithRemote w branchName remote =
          .ok { inSync := false, localExists := false, remoteExists := false,
                error := some ("Failed to check branch sync: " ++ e) } := by
        simp only [isBranchInSyncWithRemote, hb]
      exact ⟨_, hres⟩
    · exact ⟨s, by simp only [isBranchInSyncWithRemote, hb]⟩
  · rcases hb : statusAttempt w wd with e | g
    · exact ⟨errorStatusSummary, by simp only [getGitStatusSummary, hb]⟩
    · exact ⟨g, by simp only [getGitStatusSummary, hb]⟩
  · intro e₁ e₂ h₁ h₂
    rcases hv : semverParse v with _ | cur <;>
      simp only [findPreviousReleaseTag, findPreviousReleaseTagBody,
        listTagsResult, hv, h₁, h₂]
  · intro e h
    simp only [isBranchInSyncWithRemote, h]
  · intro e h
    simp only [getGitStatusSummary, h]

theorem c4_read_only_queries_never_raise_witness :
    findPreviousReleaseTag cwErr "1.2.3" "v*" = .ok none ∧
    getGitStatusSummary cwErr none = .ok errorStatusSummary := by
  have h := c4_read_only_queries_never_raise cwErr "1.2.3" "v*" "main" "origin" none
  exact ⟨h.2.2.2.1 "boom" "boom" rfl rfl, h.2.2.2.2.2 "boom" rfl⟩

/-! ## Claim C8: the resolver raises only on fallback exhaustion -/
/-- C8: `getDefaultFromRef` raises exactly when no tag-based step produced a
reference (vacuously so when forced to the main branch) and none of the
four fallback candidates validates; the raised message is the fixed fatal
text, which contains every attempted candidate; there is no other raising
path — every tag-lookup and version-read outcome other than a validated
tag falls through to the fallback chain. -/
theorem c8_getDefaultFromRef_raises_iff (w : GitWorld) (force : Bool)
    (cb : Option String) :
    ((∃ e, getDefaultFromRef w force cb = .error e) ↔
      ((force = false →
          workingTagCandidate w cb = none ∧ releaseTagCandidate w = none) ∧
        ∀ c ∈ fromRefCandidates, isValidGitRefB w c = false)) ∧
    (∀ e, getDefaultFromRef w force cb = .error e →
      e = fromRefErrorMsg force ∧
        ∀ c ∈ fromRefCandidates, strContains e c = true) := by
  rcases hforce : force with _ | _
  · -- force = false: the tag steps run first
    rcases hw : workingTagCandidate w cb with _ | t
    · rcases hr : releaseTagCandidate w with _ | t
      · -- both tag steps empty: outcome decided by the fallback chain
        rcases hf : fromRefCandidates.find? (fun c => isValidGitRefB w c) with _ | c
        · have herr : getDefaultFromRef w false cb = .error (fromRefErrorMsg false) := by
            simp only [getDefaultFromRef, hw, hr, hf, Bool.false_eq_true, if_false]
          constructor
          · constructor
            · intro _
              refine ⟨fun _ => ⟨rfl, rfl⟩, fun c hc => ?_⟩
              have := List.find?_eq_none.mp hf c hc
              simpa using this
            · intro _
              exact ⟨_, herr⟩
          · intro e he
            rw [herr] at he
            injection he with he
            subst he
            exact ⟨rfl, by decide⟩
        · have hok : getDefaultFromRef w false cb = .ok c := by
            simp only [getDefaultFromRef, hw, hr, hf, Bool.false_eq_true, if_false]
          constructor
          · constructor
            · rintro ⟨e, he⟩
              rw [hok] at he
              exact Except.noConfusion he
            · rintro ⟨_, hall⟩
              have hc := List.mem_of_find?_eq_some hf
              have hp := List.find?_some hf
              rw [hall c hc] at hp
              exact Bool.noConfusion hp
          · intro e he
            rw [hok] at he
            exact Except.noConfusion he
      · -- the regular tag step returned: no error
        have hok : getDefaultFromRef w false cb = .ok t := by
          simp only [getDefaultFromRef, hw, hr, Bool.false_eq_true, if_false]
        constructor
        · constructor
          · rintro ⟨e, he⟩
            rw [hok] at he
            exact Except.noConfusion he
          · rintro ⟨hsteps, _⟩
            exact Option.noConfusion (hsteps rfl).2
        · intro e he
          rw [hok] at he
          exact Except.noConfusion he
    · -- the working-branch tag step returned: no error
      have hok : getDefaultFromRef w false cb = .ok t := by
        simp only [getDefaultFromRef, hw, Bool.false_eq_true, if_false]
      constructor
      · constructor
        · rintro ⟨e, he⟩
          rw [hok] at he
          exact Except.noConfusion he
        · rintro ⟨hsteps, _⟩
          exact Option.noConfusion (hsteps rfl).1
      · intro e he
        rw [hok] at he
        exact Except.noConfusion he
  · -- force = true: tag detection skipped
    rcases hf : fromRefCandidates.find? (fun c => isValidGitRefB w c) with _ | c
    · have herr : getDefaultFromRef w true cb = .error (fromRefErrorMsg true) := by
        simp only [getDefaultFromRef, hf, if_true]
      constructor
      · constructor
        · intro _
          refine ⟨fun hx => Bool.noConfusion hx, fun c hc => ?_⟩
          have := List.find?_eq_none.mp hf c hc
          simpa using this
        · intro _
          exact ⟨_, herr⟩
      · intro e he
        rw [herr] at he
        injection he with he
        subst he
        exact ⟨rfl, by decide⟩
    · have hok : getDefaultFromRef w true cb = .ok c := by
        simp only [getDefaultFromRef, hf, if_true]
      constructor
      · constructor
        · rintro ⟨e, he⟩
          rw [hok] at he
          exact Except.noConfusion he
        · rintro ⟨_, hall⟩
          have hc := List.mem_of_find?_eq_some hf
          have hp := List.find?_some hf
          rw [hall c hc] at hp
          exact Bool.noConfusion hp
      · intro e he
        rw [hok] at he
        exact Except.noConfusion he

theorem c8_getDefaultFromRef_raises_iff_witness :
    (∃ e, getDefaultFromRef cwErr false none = .error e) ∧
    (∀ e, getDefaultFromRef cwErr false none = .error e →
      strContains e "origin/master" = true) := by
  have h := c8_getDefaultFromRef_raises_iff cwErr false none
  refine ⟨h.1.mpr ⟨fun _ => ⟨rfl, rfl⟩, by decide⟩,
    fun e he => (h.2 e he).2 "origin/master" (by decide)⟩

/-! ## Claim C9: porcelain line classification -/
theorem classifyStep_shift (acc : Nat × Nat) (l : String) :
    classifyStep acc l =
      (acc.1 + (classifyStep (0, 0) l).1, acc.2 + (classifyStep (0, 0) l).2) := by
  unfold classifyStep
  by_cases h : l.data.take 2 = ['?', '?']
  · simp [h]
  · simp only [if_neg h]
    rcases hg1 : (l.data.take 2).get? 1 with _ | c₁ <;>
      rcases hg0 : (l.data.take 2).get? 0 with _ | c₀ <;>
        simp <;> split_ifs <;> simp

theorem countStatusLines_shift (L : List String) (acc : Nat × Nat) :
    L.foldl classifyStep acc =
      (acc.1 + (countStatusLines L).1, acc.2 + (countStatusLines L).2) := by
  unfold countStatusLines
  induction L generalizing acc with
  | nil => simp
  | cons l L ih =>
    rw [List.foldl_cons, List.foldl_cons, ih (classifyStep acc l),
      ih (classifyStep (0, 0) l), classifyStep_shift acc l]
    simp only [Prod.mk.injEq]
    constructor <;> simp <;> omega

theorem countStatusLines_insert (pre post : List String) (l : String) :
    countStatusLines (pre ++ l :: post) =
      ((countStatusLines (pre ++ post)).1 + (classifyStep (0, 0) l).1,
        (countStatusLines (pre ++ post)).2 + (classifyStep (0, 0) l).2) := by
  unfold countStatusLines
  rw [List.foldl_append, List.foldl_cons, List.foldl_append]
  rw [countStatusLines_shift post (classifyStep (pre.foldl classifyStep (0, 0)) l)]
  rw [countStatusLines_shift post (pre.foldl classifyStep (0, 0))]
  rw [classifyStep_shift]
  simp only [Prod.mk.injEq]
  constructor <;> omega

/-- C9: an untracked (`??`) porcelain line adds exactly one to
`unstagedCount` and nothing to `uncommittedCount`, wherever it occurs;
any other line adds one to `unstagedCount` exactly when its second status
character is non-blank and one to `uncommittedCount` exactly when its
first status character is non-blank; through the whole function, the
single line `MM file.txt` yields counts (1, 1) and `?? newfile.txt`
yields (1, 0). -/
theorem c9_status_line_classification :
    (∀ (pre post : List String) (l : String),
      l.data.take 2 = ['?', '?'] →
        countStatusLines (pre ++ l :: post) =
          ((countStatusLines (pre ++ post)).1 + 1,
            (countStatusLines (pre ++ post)).2)) ∧
    (∀ (pre post : List String) (l : String) (c₀ c₁ : Char) (rest : List Char),
      l.data = c₀ :: c₁ :: rest → ¬(c₀ = '?' ∧ c₁ = '?') →
        countStatusLines (pre ++ l :: post) =
          ((countStatusLines (pre ++ post)).1 + (if c₁ ≠ ' ' then 1 else 0),
            (countStatusLines (pre ++ post)).2 + (if c₀ ≠ ' ' then 1 else 0))) ∧
    getGitStatusSummary cw9mm none = .ok
      { branch := "main", hasUnstagedFiles := true, hasUncommittedChanges := true,
        hasUnpushedCommits := false, unstagedCount := 1, uncommittedCount := 1,
        unpushedCount := 0, status := "1 unstaged, 1 uncommitted" } ∧
    getGitStatusSummary cw9q none = .ok
      { branch := "main", hasUnstagedFiles := true, hasUncommittedChanges := false,
        hasUnpushedCommits := false, unstagedCount := 1, uncommittedCount := 0,
        unpushedCount := 0, status := "1 unstaged" } := by
  refine ⟨?_, ?_, by rfl, by rfl⟩
  · intro pre post l h
    rw [countStatusLines_insert]
    have hc : classifyStep (0, 0) l = (1, 0) := by
      unfold classifyStep
      rw [if_pos h]
    rw [hc]
    rfl
  · intro pre post l c₀ c₁ rest hdata hq
    rw [countStatusLines_insert]
    have hne : l.data.take 2 ≠ ['?', '?'] := by
      rw [hdata]
      intro hx
      simp only [List.take_succ_cons, List.take_zero] at hx
      injection hx with h1 hx
      injection hx with h2 _
      exact hq ⟨h1, h2⟩
    have hc : classifyStep (0, 0) l =
        ((if c₁ ≠ ' ' then 1 else 0), (if c₀ ≠ ' ' then 1 else 0)) := by
      unfold classifyStep
      rw [hdata]
      rw [if_neg (by rw [← hdata]; exact hne)]
      simp only [List.take_succ_cons, List.take_zero, List.get?_cons_succ,
        List.get?_cons_zero]
    rw [hc]

theorem c9_status_line_classification_witness :
    countStatusLines ["A  a.txt", "?? new.txt"] =
      ((countStatusLines ["A  a.txt"]).1 + 1, (countStatusLines ["A  a.txt"]).2) :=
  c9_status_line_classification.1 ["A  a.txt"] [] "?? new.txt" (by decide)
